import Mathlib

/-
Verification of the instance-launch pipeline of quantum-launcher
(src/quantum_launcher_backend/src/instance/instance_launch.rs).

Shallow embedding conventions:
 - Filesystem paths are lists of components (`Path`), rooted at the OS root.
   Each `PathBuf::join` argument in the source becomes one appended component.
 - The filesystem is an association list from paths to entries (`Fs`), where an
   entry is either a file with string content or a directory.  Stateful
   functions thread the `Fs` value explicitly and return the state reached at
   the point of failure.
 - Parsed JSON documents (config.json, details.json, fabric.json) are supplied
   by oracles in `Env`, modelling `std::fs::read_to_string` + `serde_json`.
 - `PathBuf::to_str` can fail only when the OS-supplied launcher root contains
   bytes that are not valid Unicode; every component the program itself appends
   is a Rust `String` and therefore valid.  `Env.rootGood` records whether the
   root converts; `Env.toStr` fails exactly when it does not.
 - The Rust panic from `.unwrap()` (line 224 of the source) is modelled as the
   distinguished outcome `LErr.panicUnwrap`.
 - A Unix platform is modelled: `CLASSPATH_SEPARATOR` is ":" (the source picks
   ':' via `cfg!(unix)`).
 - Java runtime resolution and `Command::spawn` (lines 108-124) are external
   boundaries; `launch` here returns the composed JVM and game argument lists.
-/

namespace QL

/-! ## Paths and the filesystem model -/

abbrev Path := List String

inductive Entry where
  | file (content : String)
  | dir
deriving DecidableEq, Repr

abbrev Fs := List (Path × Entry)

def lookupEntry : Fs → Path → Option Entry
  | [], _ => none
  | (q, e) :: rest, p => if q = p then some e else lookupEntry rest p

def existsPath (fs : Fs) (p : Path) : Bool :=
  (lookupEntry fs p).isSome

def isDir (fs : Fs) (p : Path) : Bool :=
  lookupEntry fs p = some Entry.dir

/-- Remove every binding of key `p` from the association list. -/
def eraseKey : Fs → Path → Fs
  | [], _ => []
  | (k, e) :: fs, p => if k = p then eraseKey fs p else (k, e) :: eraseKey fs p

/-- Overwrite (or add) the binding of key `p`. -/
def insertEntry (fs : Fs) (p : Path) (e : Entry) : Fs :=
  (p, e) :: eraseKey fs p

/-- Models `std::fs::create_dir_all`: create every missing directory on the way
down to the target; fails (returns `none`) when a non-directory entry blocks
the way.  The OS root itself always exists. -/
def createDirAllAux (fs : Fs) (base : Path) : List String → Option Fs
  | [] => some fs
  | c :: rest =>
    let q := base ++ [c]
    match lookupEntry fs q with
    | some Entry.dir => createDirAllAux fs q rest
    | some (Entry.file _) => none
    | none => createDirAllAux (insertEntry fs q Entry.dir) q rest

def createDirAll (fs : Fs) (p : Path) : Option Fs :=
  createDirAllAux fs [] p

/-- Names of the immediate children of `p` present in the filesystem, in
association-list order.  Models iterating `std::fs::read_dir`. -/
def childNames (fs : Fs) (p : Path) : List String :=
  fs.filterMap fun pe =>
    match pe.1.drop p.length with
    | [n] => if p.isPrefixOf pe.1 then some n else none
    | _ => none

/-- Models `std::fs::read_dir`: fails unless `p` is a directory. -/
def readDir (fs : Fs) (p : Path) : Option (List String) :=
  if isDir fs p then some (childNames fs p) else none

/-! ## Errors (the `LauncherError` variants the embedded pipeline can produce,
plus the distinguished panic outcome) -/

inductive LErr where
  | usernameIsInvalid (u : String)
  | instanceNotFound
  | pathBufToString (p : Path)
  | versionJsonNoArgumentsField
  | jsonFileError (p : Path)
  | ioError (p : Path)
  | getLauncherDirError
  | panicUnwrap
deriving DecidableEq, Repr

instance {ε α : Type} [DecidableEq ε] [DecidableEq α] : DecidableEq (Except ε α)
  | Except.error a, Except.error b =>
    if h : a = b then Decidable.isTrue (by rw [h])
    else Decidable.isFalse (by intro hc; cases hc; exact h rfl)
  | Except.error _, Except.ok _ => Decidable.isFalse (by intro hc; cases hc)
  | Except.ok _, Except.error _ => Decidable.isFalse (by intro hc; cases hc)
  | Except.ok a, Except.ok b =>
    if h : a = b then Decidable.isTrue (by rw [h])
    else Decidable.isFalse (by intro hc; cases hc; exact h rfl)

/-- Models `std::fs::copy src dst` for a single file: requires the parent of
`dst` to be a directory and `dst` not to be a directory; overwrites any
existing file. -/
def writeFile (fs : Fs) (p : Path) (content : String) : Fs × Option LErr :=
  match lookupEntry fs p.dropLast, lookupEntry fs p with
  | some Entry.dir, some (Entry.file _) => (insertEntry fs p (Entry.file content), none)
  | some Entry.dir, none => (insertEntry fs p (Entry.file content), none)
  | _, _ => (fs, some (LErr.ioError p))

/-- Drop every entry whose key lies in the subtree rooted at `p`
(including `p` itself). -/
def removeUnder : Fs → Path → Fs
  | [], _ => []
  | (k, e) :: fs, p => if p.isPrefixOf k then removeUnder fs p else (k, e) :: removeUnder fs p

/-- Models `std::fs::remove_dir_all`: delete the whole subtree rooted at `p`;
fails when `p` is not an existing directory. -/
def removeDirAll (fs : Fs) (p : Path) : Fs × Option LErr :=
  if isDir fs p then
    (removeUnder fs p, none)
  else
    (fs, some (LErr.ioError p))

/-! ## Data model (JSON structures used by the launch pipeline).

`VersionDetails`, `InstanceConfigJson` and `FabricJSON` are declared in
`json_structs` modules that are not part of the excerpt; the fields below are
the ones the launch code reads, modelled from their uses and from the spec. -/

structure Artifact where
  path : String
deriving DecidableEq, Repr

/-- Modelled from the spec: a library's download descriptor is either a
"normal" per-platform artifact (a classpath member) or a natives/classifier
only descriptor, which the classpath builder skips. -/
inductive LibraryDownloads where
  | Normal (artifact : Artifact)
  | Other
deriving DecidableEq, Repr

structure Library where
  downloads : Option LibraryDownloads
deriving DecidableEq, Repr

/-- One entry of the structured game-argument list: either a plain JSON string
(`as_str` succeeds) or a non-string (conditional) entry. -/
inductive ArgEntry where
  | str (s : String)
  | other
deriving DecidableEq, Repr

def ArgEntry.asStr : ArgEntry → Option String
  | ArgEntry.str s => some s
  | ArgEntry.other => none

structure GameArguments where
  game : List ArgEntry
deriving DecidableEq, Repr

structure AssetIndexRef where
  id : String
deriving DecidableEq, Repr

structure LoggingFileRef where
  id : String
deriving DecidableEq, Repr

structure LoggingClient where
  file : LoggingFileRef
deriving DecidableEq, Repr

structure Logging where
  client : LoggingClient
deriving DecidableEq, Repr

structure VersionDetails where
  id : String
  type : String
  mainClass : String
  libraries : List Library
  minecraftArguments : Option String
  arguments : Option GameArguments
  assetIndex : AssetIndexRef
  logging : Option Logging
deriving DecidableEq, Repr

structure InstanceConfigJson where
  mod_type : String
  java_override : Option String
  ram_in_mb : Nat
deriving DecidableEq, Repr

/-- Modelled from the spec: the memory flag derived from the instance
config's memory setting (`config_json.get_ram_argument()`, declared outside
the excerpt). -/
def InstanceConfigJson.get_ram_argument (c : InstanceConfigJson) : String :=
  "-Xmx" ++ toString c.ram_in_mb ++ "M"

/-- Modelled from the spec: a mod-loader library entry, resolvable to a
relative artifact path via `get_path` (declared outside the excerpt). -/
structure FabricLibrary where
  path : String
deriving DecidableEq, Repr

def FabricLibrary.get_path (l : FabricLibrary) : String := l.path

structure FabricArguments where
  jvm : List String
deriving DecidableEq, Repr

structure FabricJSON where
  mainClass : String
  arguments : FabricArguments
  libraries : List FabricLibrary
deriving DecidableEq, Repr

/-! ## Environment -/

/-- Rendering of a path as a native string, used when the launcher root
converts losslessly. -/
def renderPath (p : Path) : String :=
  "/" ++ String.intercalate "/" p

structure Env where
  /-- Result of `file_utils::get_launcher_dir()`; `none` models its failure. -/
  launcherDir : Option Path
  /-- Whether the OS-supplied launcher root converts losslessly to Unicode;
  every path the pipeline produces is rooted there, so `to_str` succeeds on
  all of them or on none of them. -/
  rootGood : Bool
  /-- Parsed `config.json` at a given path (`none` = unreadable or malformed). -/
  config : Path → Option InstanceConfigJson
  /-- Parsed `details.json` at a given path. -/
  details : Path → Option VersionDetails
  /-- Parsed `fabric.json` at a given path. -/
  fabric : Path → Option FabricJSON

/-- Models `PathBuf::to_str`. -/
def Env.toStr (env : Env) (p : Path) : Option String :=
  if env.rootGood then some (renderPath p) else none

/-- `const CLASSPATH_SEPARATOR: char = if cfg!(unix) { ':' } else { ';' };`
(Unix platform modelled). -/
def CLASSPATH_SEPARATOR : String := ":"

/-! ## Rust `str::replace` -/

/-- Fuel-indexed faithful embedding of Rust `str::replace`: scan left to
right; at a match emit the replacement and continue after the matched
occurrence (the replacement is not rescanned). -/
def replaceAllAux (pat rep : List Char) : Nat → List Char → List Char
  | 0, s => s
  | _ + 1, [] => []
  | fuel + 1, c :: rest =>
    if pat.isPrefixOf (c :: rest) then
      rep ++ replaceAllAux pat rep fuel (rest.drop (pat.length - 1))
    else
      c :: replaceAllAux pat rep fuel rest

def replaceAll (pat rep s : List Char) : List Char :=
  replaceAllAux pat rep s.length s

def rustReplace (s pat rep : String) : String :=
  String.mk (replaceAll pat.data rep.data s.data)

/-- `fn replace_var(string: &mut String, var: &str, value: &str)`
(line 361): replaces every occurrence of the token in one pass. -/
def replace_var (s var value : String) : String :=
  rustReplace s ("$\x7b" ++ var ++ "\x7d") value

/-! ## Config loading (lines 176-187, 365-371) -/

def get_fabric_json (env : Env) (instance_dir : Path) : Except LErr FabricJSON :=
  let json_path := instance_dir ++ ["fabric.json"]
  match env.fabric json_path with
  | some j => Except.ok j
  | none => Except.error (LErr.jsonFileError json_path)

def get_config (env : Env) (instance_dir : Path) : Except LErr InstanceConfigJson :=
  let config_file_path := instance_dir ++ ["config.json"]
  match env.config config_file_path with
  | some c => Except.ok c
  | none => Except.error (LErr.jsonFileError config_file_path)

def read_version_json (env : Env) (instance_dir : Path) : Except LErr VersionDetails :=
  let file_path := instance_dir ++ ["details.json"]
  match env.details file_path with
  | some v => Except.ok v
  | none => Except.error (LErr.jsonFileError file_path)

/-! ## Path resolver (`get_instance_dir`, lines 343-359) -/

def get_instance_dir (env : Env) (fs : Fs) (instance_name : String) :
    Except LErr Path × Fs :=
  if instance_name = "" then (Except.error LErr.instanceNotFound, fs)
  else
    match env.launcherDir with
    | none => (Except.error LErr.getLauncherDirError, fs)
    | some launcher_dir =>
      match createDirAll fs launcher_dir with
      | none => (Except.error (LErr.ioError launcher_dir), fs)
      | some fs =>
        let instances_dir := launcher_dir ++ ["instances"]
        match createDirAll fs instances_dir with
        | none => (Except.error (LErr.ioError instances_dir), fs)
        | some fs =>
          let instance_dir := instances_dir ++ [instance_name]
          if existsPath fs instance_dir then (Except.ok instance_dir, fs)
          else (Except.error LErr.instanceNotFound, fs)

/-! ## Asset migration (`copy_dir_recursive` lines 319-341,
`migrate_to_new_assets_path` lines 308-317).

The Rust recursion descends the live directory tree; the embedding uses a fuel
parameter to bound the recursion depth, returning an error when the fuel runs
out (theorems supply enough fuel, and a successful run certifies the fuel was
sufficient). -/

/-- The body of `copy_dir_recursive`'s entry loop (lines 326-338), for one
directory entry: recurse into subdirectories, copy files, propagate the first
error (the Rust `?`).  The recursive call is passed in as `go`. -/
def copyEntry (go : Fs → Path → Path → Fs × Option LErr) (src dst : Path)
    (fs : Fs) (name : String) : Fs × Option LErr :=
  let path := src ++ [name]
  let dest_path := dst ++ [name]
  if isDir fs path then
    -- Recursively copy the subdirectory
    go fs path dest_path
  else
    -- Copy the file to the destination directory
    match lookupEntry fs path with
    | some (Entry.file c) => writeFile fs dest_path c
    | _ => (fs, some (LErr.ioError path))

/-- The entry loop itself: process each name in order, stopping at the first
error with the filesystem state reached there. -/
def copyEntries (go : Fs → Path → Path → Fs × Option LErr) (src dst : Path) :
    List String → Fs → Fs × Option LErr
  | [], fs => (fs, none)
  | name :: rest, fs =>
    match copyEntry go src dst fs name with
    | (fs, some e) => (fs, some e)
    | (fs, none) => copyEntries go src dst rest fs

def copy_dir_recursive : Nat → Fs → Path → Path → Fs × Option LErr
  | 0, fs, src, _ => (fs, some (LErr.ioError src))
  | fuel + 1, fs, src, dst =>
    -- Create the destination directory if it doesn't exist
    match (if existsPath fs dst then some fs else createDirAll fs dst) with
    | none => (fs, some (LErr.ioError dst))
    | some fs =>
      -- Iterate over the directory entries
      match readDir fs src with
      | none => (fs, some (LErr.ioError src))
      | some names => copyEntries (copy_dir_recursive fuel) src dst names fs

def migrate_to_new_assets_path (fuel : Nat) (fs : Fs) (old_assets_path assets_path : Path) :
    Fs × Option LErr :=
  match copy_dir_recursive fuel fs old_assets_path assets_path with
  | (fs, some e) => (fs, some e)
  | (fs, none) => removeDirAll fs old_assets_path

/-! ## Classpath builder (`get_class_path`, lines 189-243) -/

/-- The early-erroring iteration over base-version artifacts
(lines 199-219): skip artifacts whose file does not exist, error on a path
that fails `to_str`, otherwise append path and separator. -/
def classPathLibs (env : Env) (fs : Fs) (instance_dir : Path) :
    List Artifact → String → Except LErr String
  | [], acc => Except.ok acc
  | artifact :: rest, acc =>
    let library_path := instance_dir ++ ["libraries", artifact.path]
    if existsPath fs library_path then
      match env.toStr library_path with
      | none => Except.error (LErr.pathBufToString library_path)
      | some s => classPathLibs env fs instance_dir rest (acc ++ s ++ CLASSPATH_SEPARATOR)
    else classPathLibs env fs instance_dir rest acc

/-- The mod-loader library loop (lines 221-227); the `.unwrap()` on
`to_str` is the modelled panic. -/
def classPathFabricLibs (env : Env) (instance_dir : Path) :
    List FabricLibrary → String → Except LErr String
  | [], acc => Except.ok acc
  | library :: rest, acc =>
    let library_path := instance_dir ++ ["libraries", library.get_path]
    match env.toStr library_path with
    | none => Except.error LErr.panicUnwrap
    | some s => classPathFabricLibs env instance_dir rest (acc ++ s ++ CLASSPATH_SEPARATOR)

def get_class_path (env : Env) (fs : Fs) (version_json : VersionDetails)
    (instance_dir : Path) (fabric_json : Option FabricJSON) : Except LErr String :=
  let artifacts := version_json.libraries.filterMap fun n =>
    match n.downloads with
    | some (LibraryDownloads.Normal artifact) => some artifact
    | _ => none
  match classPathLibs env fs instance_dir artifacts "" with
  | Except.error e => Except.error e
  | Except.ok class_path =>
    match
      (match fabric_json with
       | some fj => classPathFabricLibs env instance_dir fj.libraries class_path
       | none => Except.ok class_path) with
    | Except.error e => Except.error e
    | Except.ok class_path =>
      let jar_path := instance_dir ++
        [".minecraft", "versions", version_json.id, version_json.id ++ ".jar"]
      match env.toStr jar_path with
      | none => Except.error (LErr.pathBufToString jar_path)
      | some jar_str => Except.ok (class_path ++ jar_str)

/-! ## Argument templater (`get_arguments`, lines 245-306) -/

/-- Rust `str::split(sep)` on a character: splits at every occurrence of the
separator, keeping empty segments (so `"".split(c)` is `[""]` and
`"a  b".split(' ')` is `["a", "", "b"]`). -/
def splitChar (sep : Char) : List Char → List (List Char)
  | [] => [[]]
  | c :: rest =>
    match splitChar sep rest with
    | r :: rs => if c = sep then [] :: r :: rs else (c :: r) :: rs
    | [] => [[]]

def rustSplitChar (s : String) (sep : Char) : List String :=
  (splitChar sep s.data).map String.mk

/-- Extraction of the raw game-argument list (lines 251-265): legacy
single-string template split on the space character, else the structured list
filtered to plain strings, else the missing-arguments error. -/
def extractArgs (version_json : VersionDetails) : Except LErr (List String) :=
  match version_json.minecraftArguments with
  | some arguments => Except.ok (rustSplitChar arguments ' ')
  | none =>
    match version_json.arguments with
    | some arguments => Except.ok (arguments.game.filterMap ArgEntry.asStr)
    | none => Except.error LErr.versionJsonNoArgumentsField

/-- Body of the per-argument loop (lines 266-304). -/
def templateArg (fuel : Nat) (env : Env) (fs : Fs) (version_json : VersionDetails)
    (username : String) (minecraft_dir instance_dir : Path) (argument : String) :
    Except LErr String × Fs :=
  let argument := replace_var argument ("auth_player_name") username
  let argument := replace_var argument ("version_name") version_json.id
  match env.toStr minecraft_dir with
  | none => (Except.error (LErr.pathBufToString minecraft_dir), fs)
  | some minecraft_dir_path =>
    let argument := replace_var argument ("game_directory") minecraft_dir_path
    match env.launcherDir with
    | none => (Except.error LErr.getLauncherDirError, fs)
    | some launcher_dir =>
      let assets_path := launcher_dir ++ ["assets", version_json.assetIndex.id]
      let old_assets_path := instance_dir ++ ["assets"]
      match
        (if existsPath fs old_assets_path then
          migrate_to_new_assets_path fuel fs old_assets_path assets_path
        else (fs, none)) with
      | (fs, some e) => (Except.error e, fs)
      | (fs, none) =>
        match env.toStr assets_path with
        | none => (Except.error (LErr.pathBufToString assets_path), fs)
        | some assets_path_str =>
          let argument := replace_var argument ("assets_root") assets_path_str
          let argument := replace_var argument ("game_assets") assets_path_str
          let argument := replace_var argument ("auth_xuid") ("0")
          let argument := replace_var argument ("auth_uuid")
            ("00000000-0000-0000-0000-000000000000")
          let argument := replace_var argument ("auth_access_token") ("0")
          let argument := replace_var argument ("clientid") ("0")
          let argument := replace_var argument ("user_type") ("legacy")
          let argument := replace_var argument ("version_type") ("release")
          let argument := replace_var argument ("assets_index_name") version_json.assetIndex.id
          let argument := replace_var argument ("user_properties") ("\x7b\x7d")
          (Except.ok argument, fs)

def templateArgs (fuel : Nat) (env : Env) (version_json : VersionDetails)
    (username : String) (minecraft_dir instance_dir : Path) :
    List String → Fs → Except LErr (List String) × Fs
  | [], fs => (Except.ok [], fs)
  | a :: rest, fs =>
    match templateArg fuel env fs version_json username minecraft_dir instance_dir a with
    | (Except.error e, fs) => (Except.error e, fs)
    | (Except.ok a, fs) =>
      match templateArgs fuel env version_json username minecraft_dir instance_dir rest fs with
      | (Except.error e, fs) => (Except.error e, fs)
      | (Except.ok rest, fs) => (Except.ok (a :: rest), fs)

def get_arguments (fuel : Nat) (env : Env) (fs : Fs) (version_json : VersionDetails)
    (username : String) (minecraft_dir instance_dir : Path) :
    Except LErr (List String) × Fs :=
  match extractArgs version_json with
  | Except.error e => (Except.error e, fs)
  | Except.ok game_arguments =>
    templateArgs fuel env version_json username minecraft_dir instance_dir game_arguments fs

/-! ## Launch composer (`setup_fabric` lines 127-143, `setup_logging` lines
161-174, `setup_classpath_and_mainclass` lines 145-159, and the JVM-argument
assembly of `launch`, lines 79-106) -/

def setup_fabric (env : Env) (config_json : InstanceConfigJson) (instance_dir : Path)
    (java_arguments : List String) : Except LErr (Option FabricJSON × List String) :=
  if config_json.mod_type = "Fabric" then
    match get_fabric_json env instance_dir with
    | Except.error e => Except.error e
    | Except.ok fj => Except.ok (some fj, java_arguments ++ fj.arguments.jvm)
  else Except.ok (none, java_arguments)

def setup_logging (env : Env) (version_json : VersionDetails) (instance_dir : Path)
    (java_arguments : List String) : Except LErr (List String) :=
  match version_json.logging with
  | some logging =>
    let logging_path := instance_dir ++ ["logging-" ++ logging.client.file.id]
    match env.toStr logging_path with
    | none => Except.error (LErr.pathBufToString logging_path)
    | some s =>
      Except.ok (java_arguments ++ ["-Dlog4j.configurationFile=\"" ++ s ++ "\""])
  | none => Except.ok java_arguments

def setup_classpath_and_mainclass (env : Env) (fs : Fs) (java_arguments : List String)
    (version_json : VersionDetails) (instance_dir : Path)
    (fabric_json : Option FabricJSON) : Except LErr (List String) :=
  match get_class_path env fs version_json instance_dir fabric_json with
  | Except.error e => Except.error e
  | Except.ok cp =>
    Except.ok (java_arguments ++ ["-cp", cp,
      match fabric_json with
      | some fj => fj.mainClass
      | none => version_json.mainClass])

/-- Lines 79-106 of `launch`, factored out: the JVM argument list as composed
after the game arguments have been produced. -/
def composeJavaArguments (env : Env) (fs : Fs) (config_json : InstanceConfigJson)
    (version_json : VersionDetails) (instance_dir : Path) : Except LErr (List String) :=
  let natives_path := instance_dir ++ ["libraries", "natives"]
  match env.toStr natives_path with
  | none => Except.error (LErr.pathBufToString natives_path)
  | some natives_str =>
    let java_arguments :=
      ["-Xss1M", "-Dminecraft.launcher.brand=minecraft-launcher",
       "-Dminecraft.launcher.version=2.1.1349",
       "-Djava.library.path=" ++ natives_str,
       config_json.get_ram_argument]
    let java_arguments :=
      if version_json.type = "old_beta" ∨ version_json.type = "old_alpha" then
        java_arguments ++ ["-Dhttp.proxyHost=betacraft.uk"]
      else java_arguments
    match setup_fabric env config_json instance_dir java_arguments with
    | Except.error e => Except.error e
    | Except.ok (fabric_json, java_arguments) =>
      match setup_logging env version_json instance_dir java_arguments with
      | Except.error e => Except.error e
      | Except.ok java_arguments =>
        setup_classpath_and_mainclass env fs java_arguments version_json instance_dir
          fabric_json

/-! ## The orchestrator (`launch`, lines 60-125).  Java-runtime resolution and
process spawning (lines 108-124) are external boundaries; the embedded
`launch` returns the composed (JVM arguments, game arguments) pair. -/

def launch (fuel : Nat) (env : Env) (fs : Fs) (instance_name username : String) :
    Except LErr (List String × List String) × Fs :=
  if username.data.contains ' ' || username = "" then
    (Except.error (LErr.usernameIsInvalid username), fs)
  else
    match get_instance_dir env fs instance_name with
    | (Except.error e, fs) => (Except.error e, fs)
    | (Except.ok instance_dir, fs) =>
      let minecraft_dir := instance_dir ++ [".minecraft"]
      match createDirAll fs minecraft_dir with
      | none => (Except.error (LErr.ioError minecraft_dir), fs)
      | some fs =>
        match get_config env instance_dir with
        | Except.error e => (Except.error e, fs)
        | Except.ok config_json =>
          match read_version_json env instance_dir with
          | Except.error e => (Except.error e, fs)
          | Except.ok version_json =>
            match get_arguments fuel env fs version_json username minecraft_dir
                instance_dir with
            | (Except.error e, fs) => (Except.error e, fs)
            | (Except.ok game_arguments, fs) =>
              match composeJavaArguments env fs config_json version_json instance_dir with
              | Except.error e => (Except.error e, fs)
              | Except.ok java_arguments =>
                (Except.ok (java_arguments, game_arguments), fs)

/-- The main class the composer selects (mod loader's override if active,
else the base version's). -/
def mainClassOf (fabric_json : Option FabricJSON) (version_json : VersionDetails) :
    String :=
  match fabric_json with
  | some fj => fj.mainClass
  | none => version_json.mainClass

/-- The mod-loader JVM arguments contributed to the argument list. -/
def fabricJvmOf (fabric_json : Option FabricJSON) : List String :=
  match fabric_json with
  | some fj => fj.arguments.jvm
  | none => []

/-! ## Specification-side definitions (written from the claims' wording, for
comparison with the source-derived functions above) -/

/-- Joining segments with a separator character (inverse of splitting). -/
def joinSep (sep : Char) : List (List Char) → List Char
  | [] => []
  | [x] => x
  | x :: y :: rest => x ++ sep :: joinSep sep (y :: rest)

/-- Splitting on whitespace as the claim words it (discrete arguments, no
empties), i.e. Rust `split_whitespace` semantics. -/
def splitWsAux : List Char → List Char → List String
  | [], acc => if acc = [] then [] else [String.mk acc]
  | c :: rest, acc =>
    if c.isWhitespace then
      if acc = [] then splitWsAux rest [] else String.mk acc :: splitWsAux rest []
    else splitWsAux rest (acc ++ [c])

def splitWhitespaceSpec (s : String) : List String :=
  splitWsAux s.data []

/-- The contribution of each library to the classpath as the claim describes
it: the rendered path followed by the separator for a library with a normal
artifact descriptor whose file exists, nothing otherwise. -/
def classpathLibsSpec (fs : Fs) (instance_dir : Path) : List Library → String
  | [] => ""
  | l :: rest =>
    (match l.downloads with
     | some (LibraryDownloads.Normal a) =>
       let p := instance_dir ++ ["libraries", a.path]
       if existsPath fs p then renderPath p ++ CLASSPATH_SEPARATOR else ""
     | _ => "") ++ classpathLibsSpec fs instance_dir rest

/-- The classpath string the claim describes: in listed order, the rendered
path of every library with a normal artifact descriptor whose file exists,
each followed by the separator, then the main jar path unconditionally. -/
def classpathOfSpec (fs : Fs) (version_json : VersionDetails) (instance_dir : Path) :
    String :=
  classpathLibsSpec fs instance_dir version_json.libraries
  ++ renderPath (instance_dir ++
      [".minecraft", "versions", version_json.id, version_json.id ++ ".jar"])

/-- The recognized placeholder names, in the order the source substitutes
them (lines 267-303). -/
def recognizedVars : List String :=
  ["auth_player_name", "version_name", "game_directory", "assets_root",
   "game_assets", "auth_xuid", "auth_uuid", "auth_access_token", "clientid",
   "user_type", "version_type", "assets_index_name", "user_properties"]

/-- The character sequence of the placeholder token for a name. -/
def tokenChars (name : String) : List Char :=
  '$' :: '\x7b' :: (name.data ++ ['\x7d'])

/-- A placeholder name that contains no dollar sign and no brace. -/
def goodNameB (name : String) : Bool :=
  name.data.all fun c => c != '$' && c != '\x7b' && c != '\x7d'

/-- A string contains no dollar sign (so substituting it cannot create or
destroy placeholder tokens). -/
def noDollar (s : String) : Bool :=
  s.data.all fun c => c != '$'

/-- Well-formed template text: a concatenation of dollar-free literal
characters and placeholder tokens whose names avoid a given list. -/
inductive TokWF (avoid : List String) : List Char → Prop
  | nil : TokWF avoid []
  | lit (c : Char) (hc : c ≠ '$') (rest : List Char) (h : TokWF avoid rest) :
      TokWF avoid (c :: rest)
  | tok (name : String) (hg : goodNameB name = true) (ha : name ∉ avoid)
      (rest : List Char) (h : TokWF avoid rest) :
      TokWF avoid (tokenChars name ++ rest)

/-- Decidable source-tree well-formedness at a root: every entry strictly
below the root has its parent present as a directory. -/
def treeWFb (fs : Fs) (root : Path) : Bool :=
  fs.all fun pe =>
    if root.isPrefixOf pe.1 ∧ pe.1 ≠ root then
      decide (lookupEntry fs pe.1.dropLast = some Entry.dir)
    else true

/-! ## Concrete instances used by witnesses and counterexamples -/

def envDummy : Env :=
  { launcherDir := none, rootGood := false,
    config := fun _ => none, details := fun _ => none, fabric := fun _ => none }

/-- A version-details value whose structured argument list has no plain-string
entry, so the extracted game-argument list is empty. -/
def vjEmptyArgs : VersionDetails :=
  { id := "1.20", type := "release", mainClass := "Main", libraries := [],
    minecraftArguments := none, arguments := some ⟨[ArgEntry.other]⟩,
    assetIndex := ⟨"5"⟩, logging := none }

/-- A filesystem in which the legacy per-instance assets directory exists and
is populated. -/
def fsLegacyAssets : Fs :=
  [(["L", "instances", "I", "assets"], Entry.dir),
   (["L", "instances", "I", "assets", "f"], Entry.file ("x"))]

/-- A version-details value using the legacy argument template with a tab. -/
def vjTabArgs : VersionDetails :=
  { id := "b1.7.3", type := "old_beta", mainClass := "Main", libraries := [],
    minecraftArguments := some "a\tb", arguments := none,
    assetIndex := ⟨"pre-1.6"⟩, logging := none }

/-- An environment whose launcher root is present and converts losslessly (no
instance documents are readable). -/
def envRootOnly : Env :=
  { launcherDir := some ["L"], rootGood := true,
    config := fun _ => none, details := fun _ => none, fabric := fun _ => none }

/-- The end-to-end classpath scenario of the spec: instance "Test1.20", one
library present on disk ("a.jar"), one declared but missing ("b.jar"), one
natives-only descriptor and one without downloads. -/
def dirC1 : Path := ["L", "instances", "Test1.20"]

def fsC1 : Fs := [(["L", "instances", "Test1.20", "libraries", "a.jar"], Entry.file ("lib"))]

def vjC1 : VersionDetails :=
  { id := "1.20", type := "release", mainClass := "net.minecraft.client.main.Main",
    libraries := [⟨some (LibraryDownloads.Normal ⟨"a.jar"⟩)⟩,
                  ⟨some (LibraryDownloads.Normal ⟨"b.jar"⟩)⟩,
                  ⟨some LibraryDownloads.Other⟩, ⟨none⟩],
    minecraftArguments := none, arguments := none,
    assetIndex := ⟨"5"⟩, logging := none }

/-- The filesystem states reached by the two parent-directory creations when
launching from an empty filesystem with launcher root `["L"]`. -/
def fsParents1 : Fs := [(["L"], Entry.dir)]

def fsParents2 : Fs := [(["L", "instances"], Entry.dir), (["L"], Entry.dir)]

/-- A plain vanilla instance configuration. -/
def cfgVanilla : InstanceConfigJson :=
  { mod_type := "Vanilla", java_override := none, ram_in_mb := 2048 }

/-- A Fabric instance configuration. -/
def cfgFabric : InstanceConfigJson :=
  { mod_type := "Fabric", java_override := none, ram_in_mb := 2048 }

/-- A concrete Fabric metadata document. -/
def fjW : FabricJSON :=
  { mainClass := "net.fabricmc.loader.launch.knot.KnotClient",
    arguments := ⟨["-DFabricMcEmu=net.minecraft.client.main.Main"]⟩,
    libraries := [⟨"fabric-loader.jar"⟩] }

def dirI : Path := ["L", "instances", "I"]

/-- An environment that serves `fjW` as the Fabric metadata of instance I. -/
def envFabric : Env :=
  { launcherDir := some ["L"], rootGood := true,
    config := fun _ => none, details := fun _ => none,
    fabric := fun p => if p = ["L", "instances", "I", "fabric.json"] then some fjW else none }

/-- A Fabric metadata document whose declared JVM arguments happen to spell
the legacy proxy flag. -/
def fjProxy : FabricJSON :=
  { mainClass := "net.fabricmc.loader.launch.knot.KnotClient",
    arguments := ⟨["-Dhttp.proxyHost=betacraft.uk"]⟩,
    libraries := [⟨"fabric-loader.jar"⟩] }

/-- An environment that serves `fjProxy` as the Fabric metadata of instance I. -/
def envFabricProxy : Env :=
  { launcherDir := some ["L"], rootGood := true,
    config := fun _ => none, details := fun _ => none,
    fabric := fun p =>
      if p = ["L", "instances", "I", "fabric.json"] then some fjProxy else none }

/-- A string that is empty or starts with the path-rendering slash.  Every
classpath accumulator has this property, which separates classpath strings
from the fixed `-`-initial JVM flags. -/
def slashHead (s : String) : Prop :=
  s.data = [] ∨ s.data[0]? = some '/'

/-- The safety discipline the claims demand of every pipeline error: it is
never the modelled panic, and a path-encoding error names a path whose
conversion really fails. -/
def ErrOK (env : Env) : LErr → Prop
  | LErr.panicUnwrap => False
  | LErr.pathBufToString p => env.toStr p = none
  | _ => True

/-- A minimal legacy-template version document. -/
def vjLegacyX : VersionDetails :=
  { id := "1.0", type := "release", mainClass := "Main", libraries := [],
    minecraftArguments := some "x", arguments := none,
    assetIndex := ⟨"1"⟩, logging := none }

/-- A filesystem in which instance I exists. -/
def fsInstI : Fs := [(["L", "instances", "I"], Entry.dir)]

/-- An environment whose launcher root does not convert losslessly, with
instance I fully readable. -/
def envBadRoot : Env :=
  { launcherDir := some ["L"], rootGood := false,
    config := fun p => if p = ["L", "instances", "I", "config.json"]
      then some cfgVanilla else none,
    details := fun p => if p = ["L", "instances", "I", "details.json"]
      then some vjLegacyX else none,
    fabric := fun _ => none }

/-- The substitution chain of the templating loop: apply each (name, value)
pair in order with `replaceAll`. -/
def substChain (pairs : List (String × String)) (s : List Char) : List Char :=
  pairs.foldl (fun acc pv => replaceAll (tokenChars pv.1) pv.2.data acc) s

/-- The (placeholder, value) pairs the loop substitutes, in source order
(lines 267-303). -/
def substPairsOf (username : String) (version_json : VersionDetails)
    (minecraft_dir_path assets_path_str : String) : List (String × String) :=
  [("auth_player_name", username), ("version_name", version_json.id),
   ("game_directory", minecraft_dir_path), ("assets_root", assets_path_str),
   ("game_assets", assets_path_str), ("auth_xuid", "0"),
   ("auth_uuid", "00000000-0000-0000-0000-000000000000"),
   ("auth_access_token", "0"), ("clientid", "0"), ("user_type", "legacy"),
   ("version_type", "release"), ("assets_index_name", version_json.assetIndex.id),
   ("user_properties", "\x7b\x7d")]

/-- A version document whose legacy template is a lone recognized
placeholder. -/
def vjEcho : VersionDetails :=
  { id := "1.0", type := "release", mainClass := "Main", libraries := [],
    minecraftArguments := some "$\x7bauth_player_name\x7d", arguments := none,
    assetIndex := ⟨"1"⟩, logging := none }

/-- Source-tree well-formedness as a proposition: every present entry
strictly below the root has its parent present as a directory. -/
def TreeWFP (fs : Fs) (root : Path) : Prop :=
  ∀ q, (lookupEntry fs q).isSome = true → root <+: q → q ≠ root →
    lookupEntry fs q.dropLast = some Entry.dir

/-- A populated legacy asset directory and an empty shared store. -/
def fsMigrate : Fs :=
  [(["L", "instances", "I", "assets"], Entry.dir),
   (["L", "instances", "I", "assets", "icons"], Entry.dir),
   (["L", "instances", "I", "assets", "icons", "icon.png"], Entry.file ("png")),
   (["L", "instances", "I", "assets", "sound.ogg"], Entry.file ("ogg")),
   (["L"], Entry.dir), (["L", "assets"], Entry.dir)]

-- more concrete instances are added here as the theorems need them

/-! ## General helper lemmas -/

theorem stringDataMk (l : List Char) : (String.mk l).data = l := rfl

theorem splitChar_ne_nil (sep : Char) (l : List Char) : splitChar sep l ≠ [] := by
  cases l with
  | nil => simp [splitChar]
  | cons c rest =>
    have h := splitChar_ne_nil sep rest
    cases hr : splitChar sep rest with
    | nil => exact absurd hr h
    | cons r rs =>
      simp only [splitChar, hr]
      split <;> simp

theorem joinSep_splitChar (sep : Char) (l : List Char) :
    joinSep sep (splitChar sep l) = l := by
  induction l with
  | nil => simp [splitChar, joinSep]
  | cons c rest ih =>
    cases hr : splitChar sep rest with
    | nil => exact absurd hr (splitChar_ne_nil sep rest)
    | cons r rs =>
      rw [hr] at ih
      by_cases h : c = sep
      · subst h
        simp only [splitChar, hr, if_pos rfl]
        simpa [joinSep] using ih
      · simp only [splitChar, hr, if_neg h]
        cases rs with
        | nil => simpa [joinSep] using ih
        | cons y ys => simpa [joinSep] using ih

theorem splitChar_no_sep (sep : Char) (l : List Char) :
    ∀ seg ∈ splitChar sep l, sep ∉ seg := by
  induction l with
  | nil => simp [splitChar]
  | cons c rest ih =>
    cases hr : splitChar sep rest with
    | nil => exact absurd hr (splitChar_ne_nil sep rest)
    | cons r rs =>
      rw [hr] at ih
      by_cases h : c = sep
      · subst h
        simp only [splitChar, hr, if_pos rfl]
        intro seg hseg
        rcases List.mem_cons.mp hseg with hseg | hseg
        · simp [hseg]
        · exact ih seg hseg
      · simp only [splitChar, hr, if_neg h]
        intro seg hseg
        rcases List.mem_cons.mp hseg with hseg | hseg
        · subst hseg
          intro hmem
          rcases List.mem_cons.mp hmem with hmem | hmem
          · exact h hmem.symm
          · exact ih r (by simp) hmem
        · exact ih seg (List.mem_cons.mpr (Or.inr hseg))

theorem lookupEntry_eraseKey (fs : Fs) (p q : Path) (h : q ≠ p) :
    lookupEntry (eraseKey fs p) q = lookupEntry fs q := by
  induction fs with
  | nil => rfl
  | cons ke fs ih =>
    obtain ⟨k, e⟩ := ke
    by_cases hk : k = p
    · rw [show eraseKey ((k, e) :: fs) p = eraseKey fs p from by
        simp [eraseKey, hk]]
      rw [ih]
      have hkq : ¬ k = q := fun hh => h (hh ▸ hk)
      simp [lookupEntry, hkq]
    · rw [show eraseKey ((k, e) :: fs) p = (k, e) :: eraseKey fs p from by
        simp [eraseKey, hk]]
      simp only [lookupEntry]
      by_cases hkq : k = q
      · rw [if_pos hkq, if_pos hkq]
      · rw [if_neg hkq, if_neg hkq]
        exact ih

theorem lookupEntry_insertEntry (fs : Fs) (p : Path) (e : Entry) (q : Path) :
    lookupEntry (insertEntry fs p e) q = if q = p then some e else lookupEntry fs q := by
  by_cases h : q = p
  · subst h
    simp [insertEntry, lookupEntry]
  · have hpq : ¬ p = q := fun hh => h hh.symm
    simp only [insertEntry, lookupEntry, if_neg h, if_neg hpq]
    exact lookupEntry_eraseKey fs p q h

theorem createDirAllAux_preserves (rest : List String) :
    ∀ base fs fs' q, createDirAllAux fs base rest = some fs' →
      (base ++ rest).length < q.length →
      lookupEntry fs' q = lookupEntry fs q := by
  induction rest with
  | nil =>
    intro base fs fs' q h _
    simp only [createDirAllAux, Option.some.injEq] at h
    rw [h]
  | cons c rest ih =>
    intro base fs fs' q h hlen
    simp only [createDirAllAux] at h
    cases hl : lookupEntry fs (base ++ [c]) with
    | some e =>
      cases e with
      | dir =>
        rw [hl] at h
        exact ih (base ++ [c]) fs fs' q h (by simpa using hlen)
      | file content => rw [hl] at h; cases h
    | none =>
      rw [hl] at h
      have hstep := ih (base ++ [c]) _ fs' q h (by simpa using hlen)
      rw [hstep, lookupEntry_insertEntry]
      rw [if_neg]
      intro hq
      subst hq
      simp only [List.length_append, List.length_cons, List.length_nil] at hlen
      omega

theorem createDirAll_preserves (fs : Fs) (p : Path) (fs' : Fs) (q : Path)
    (h : createDirAll fs p = some fs') (hlen : p.length < q.length) :
    lookupEntry fs' q = lookupEntry fs q :=
  createDirAllAux_preserves p [] fs fs' q h (by simpa using hlen)

/-! ## Claim C10 -/

/-- Claim C10: when the extracted game-argument list is empty, `get_arguments`
performs no migration and returns the filesystem unchanged (the legacy assets
directory, even if present, is untouched and the shared store is not
written). -/
theorem get_arguments_empty_no_migration (fuel : Nat) (env : Env) (fs : Fs)
    (version_json : VersionDetails) (username : String)
    (minecraft_dir instance_dir : Path)
    (h : extractArgs version_json = Except.ok []) :
    get_arguments fuel env fs version_json username minecraft_dir instance_dir =
      (Except.ok [], fs) := by
  simp [get_arguments, h, templateArgs]

theorem get_arguments_empty_no_migration_witness :
    get_arguments 3 envDummy fsLegacyAssets vjEmptyArgs ("Steve")
      (["L", "instances", "I", ".minecraft"]) (["L", "instances", "I"]) =
      (Except.ok [], fsLegacyAssets) :=
  get_arguments_empty_no_migration 3 envDummy fsLegacyAssets vjEmptyArgs ("Steve")
    (["L", "instances", "I", ".minecraft"]) (["L", "instances", "I"]) rfl

/-! ## Claim C3 -/

/-- Claim C3, counterexample: the source checks only for the space character
(line 65), so the username "a\tb" — which contains a whitespace character —
is not rejected as invalid: with an empty instance name the launch fails with
`instanceNotFound`, not `usernameIsInvalid`. -/
theorem launch_tab_username_not_rejected :
    ('\t'.isWhitespace = true) ∧
    ("a\tb" ≠ "") ∧
    launch 1 envDummy [] ("") ("a\tb") = (Except.error LErr.instanceNotFound, []) ∧
    (launch 1 envDummy [] ("") ("a\tb")).1 ≠
      Except.error (LErr.usernameIsInvalid ("a\tb")) := by
  refine ⟨by decide, by decide, rfl, by decide⟩

/-- Claim C3, amended: for every username that is empty or contains a space
character (U+0020), `launch` returns the invalid-username error immediately,
with the filesystem state unchanged (no directory is created). -/
theorem launch_invalid_username (fuel : Nat) (env : Env) (fs : Fs)
    (instance_name username : String)
    (h : username.data.contains ' ' = true ∨ username = "") :
    launch fuel env fs instance_name username =
      (Except.error (LErr.usernameIsInvalid username), fs) := by
  unfold launch
  split
  · rfl
  · rename_i hcond
    exfalso
    simp only [Bool.or_eq_true, decide_eq_true_eq, not_or] at hcond
    rcases h with h | h
    · exact absurd h (by simpa using hcond.1)
    · exact hcond.2 h

theorem launch_invalid_username_witness :
    launch 1 envDummy [] ("I") ("Ste ve") =
      (Except.error (LErr.usernameIsInvalid ("Ste ve")), []) :=
  launch_invalid_username 1 envDummy [] ("I") ("Ste ve") (Or.inl (by decide))

/-! ## Claim C7 -/

/-- Claim C7, counterexample: the legacy template is split on the space
character only (line 253), not on whitespace: on the template "a\tb" the code
produces the single argument "a\tb", while splitting on whitespace would
produce "a" and "b". -/
theorem extractArgs_not_whitespace_split :
    extractArgs vjTabArgs = Except.ok ["a\tb"] ∧
    splitWhitespaceSpec ("a\tb") = ["a", "b"] ∧
    (["a\tb"] : List String) ≠ ["a", "b"] :=
  ⟨rfl, by decide, by decide⟩

/-- Claim C7, amended: extraction selects the legacy single-string template
when present and splits it exactly at space characters (so joining the pieces
back with a space yields the template and no piece contains a space —
consecutive spaces yield empty arguments); otherwise it takes the structured
list filtered to its plain-string entries; when neither form is present it
fails with the missing-arguments error. -/
theorem extractArgs_characterization (version_json : VersionDetails) :
    (∀ s, version_json.minecraftArguments = some s →
      ∃ args, extractArgs version_json = Except.ok args ∧
        joinSep ' ' (args.map String.data) = s.data ∧
        ∀ a ∈ args, ' ' ∉ a.data) ∧
    (version_json.minecraftArguments = none →
      ∀ ga, version_json.arguments = some ga →
        extractArgs version_json = Except.ok (ga.game.filterMap ArgEntry.asStr)) ∧
    (version_json.minecraftArguments = none → version_json.arguments = none →
      extractArgs version_json = Except.error LErr.versionJsonNoArgumentsField) := by
  refine ⟨?_, ?_, ?_⟩
  · intro s hs
    refine ⟨rustSplitChar s ' ', by simp [extractArgs, hs], ?_, ?_⟩
    · have hmap : (rustSplitChar s ' ').map String.data = splitChar ' ' s.data := by
        simp only [rustSplitChar, List.map_map]
        have hcomp : String.data ∘ String.mk = (id : List Char → List Char) := rfl
        rw [hcomp, List.map_id]
      rw [hmap, joinSep_splitChar]
    · intro a ha
      simp only [rustSplitChar, List.mem_map] at ha
      obtain ⟨seg, hseg, rfl⟩ := ha
      exact splitChar_no_sep ' ' s.data seg hseg
  · intro h ga hga
    simp [extractArgs, h, hga]
  · intro h h2
    simp [extractArgs, h, h2]

theorem extractArgs_characterization_witness :
    ∃ args, extractArgs vjTabArgs = Except.ok args ∧
      joinSep ' ' (args.map String.data) = ("a\tb").data ∧
      ∀ a ∈ args, ' ' ∉ a.data :=
  (extractArgs_characterization vjTabArgs).1 ("a\tb") rfl

/-! ## Claim C8 -/

/-- Claim C8: launching an empty instance name or one whose directory does not
exist fails with `instanceNotFound`; the launcher root and the instances
parent directory may be created on the way, but the instance directory itself
is never created (it is still absent in the returned filesystem state). -/
theorem launch_missing_instance (fuel : Nat) (env : Env) (fs : Fs)
    (instance_name username : String)
    (hu : username.data.contains ' ' = false) (hu2 : username ≠ "") :
    (instance_name = "" →
      launch fuel env fs instance_name username =
        (Except.error LErr.instanceNotFound, fs)) ∧
    (∀ launcher_dir fs1 fs2, instance_name ≠ "" →
      env.launcherDir = some launcher_dir →
      createDirAll fs launcher_dir = some fs1 →
      createDirAll fs1 (launcher_dir ++ ["instances"]) = some fs2 →
      existsPath fs (launcher_dir ++ ["instances", instance_name]) = false →
      launch fuel env fs instance_name username =
        (Except.error LErr.instanceNotFound, fs2) ∧
      existsPath fs2 (launcher_dir ++ ["instances", instance_name]) = false) := by
  have hcond : ¬ (username.data.contains ' ' || decide (username = "")) = true := by
    rw [hu, decide_eq_false hu2]
    simp
  constructor
  · intro hname
    rw [launch, if_neg hcond]
    simp [get_instance_dir, hname]
  · intro launcher_dir fs1 fs2 hname hld hc1 hc2 hex
    have hkeep1 : lookupEntry fs1 (launcher_dir ++ ["instances", instance_name]) =
        lookupEntry fs (launcher_dir ++ ["instances", instance_name]) :=
      createDirAll_preserves fs launcher_dir fs1 _ hc1 (by simp)
    have hkeep2 : lookupEntry fs2 (launcher_dir ++ ["instances", instance_name]) =
        lookupEntry fs1 (launcher_dir ++ ["instances", instance_name]) :=
      createDirAll_preserves fs1 (launcher_dir ++ ["instances"]) fs2 _ hc2 (by simp)
    have hex2 : existsPath fs2 (launcher_dir ++ ["instances", instance_name]) = false := by
      rw [existsPath] at hex ⊢
      rw [hkeep2, hkeep1]
      exact hex
    refine ⟨?_, hex2⟩
    rw [launch, if_neg hcond]
    have hgid : get_instance_dir env fs instance_name =
        (Except.error LErr.instanceNotFound, fs2) := by
      rw [get_instance_dir, if_neg hname, hld]
      simp only [hc1, hc2]
      have : launcher_dir ++ ["instances"] ++ [instance_name] =
          launcher_dir ++ ["instances", instance_name] := by simp
      rw [this, hex2]
      simp
    rw [hgid]

theorem launch_missing_instance_witness :
    launch 1 envRootOnly [] ("gone") ("Steve") =
      (Except.error LErr.instanceNotFound, fsParents2) ∧
    existsPath fsParents2 (["L", "instances", "gone"]) = false :=
  (launch_missing_instance 1 envRootOnly [] ("gone") ("Steve") (by decide)
      (by decide)).2
    ["L"] fsParents1 fsParents2 (by decide) rfl rfl rfl rfl

/-! ## Claim C1 -/

theorem classPathLibs_spec (env : Env) (fs : Fs) (instance_dir : Path)
    (hroot : env.rootGood = true) (libs : List Library) :
    ∀ acc, classPathLibs env fs instance_dir
        (libs.filterMap fun n =>
          match n.downloads with
          | some (LibraryDownloads.Normal artifact) => some artifact
          | _ => none) acc =
      Except.ok (acc ++ classpathLibsSpec fs instance_dir libs) := by
  induction libs with
  | nil => intro acc; simp [classPathLibs, classpathLibsSpec]
  | cons l rest ih =>
    intro acc
    cases hd : l.downloads with
    | none =>
      simp only [List.filterMap_cons, hd, classpathLibsSpec]
      rw [ih acc]
      simp [String.empty_append]
    | some d =>
      cases d with
      | Other =>
        simp only [List.filterMap_cons, hd, classpathLibsSpec]
        rw [ih acc]
        simp [String.empty_append]
      | Normal a =>
        simp only [List.filterMap_cons, hd, classpathLibsSpec]
        by_cases hex : existsPath fs (instance_dir ++ ["libraries", a.path]) = true
        · rw [classPathLibs]
          simp only [hex, Env.toStr, hroot, ite_true]
          rw [ih]
          rw [String.append_assoc, String.append_assoc]
          rw [String.append_assoc]
        · rw [Bool.not_eq_true] at hex
          rw [classPathLibs]
          simp only [hex, Bool.false_eq_true, ite_false]
          rw [ih]
          simp [String.empty_append]

/-- Claim C1: with no mod loader, the classpath is exactly the rendered paths
of the libraries with a normal artifact descriptor whose file exists, in
listed order, each followed by the separator, then the main jar path,
appended unconditionally (no existence check); missing artifacts are skipped
with no error. -/
theorem get_class_path_no_modloader (env : Env) (fs : Fs)
    (version_json : VersionDetails) (instance_dir : Path)
    (hroot : env.rootGood = true) :
    get_class_path env fs version_json instance_dir none =
      Except.ok (classpathOfSpec fs version_json instance_dir) := by
  rw [get_class_path]
  rw [classPathLibs_spec env fs instance_dir hroot version_json.libraries ""]
  simp only [Env.toStr, hroot, ite_true, classpathOfSpec, String.empty_append]

theorem get_class_path_no_modloader_witness :
    get_class_path envRootOnly fsC1 vjC1 dirC1 none =
      Except.ok ("/L/instances/Test1.20/libraries/a.jar:" ++
        "/L/instances/Test1.20/.minecraft/versions/1.20/1.20.jar") :=
  (get_class_path_no_modloader envRootOnly fsC1 vjC1 dirC1 rfl).trans (by rfl)

/-! ## Component lemmas for the launch composer -/

theorem setup_fabric_active (env : Env) (config_json : InstanceConfigJson)
    (instance_dir : Path) (ja : List String) (fj : FabricJSON)
    (hm : config_json.mod_type = "Fabric")
    (hf : env.fabric (instance_dir ++ ["fabric.json"]) = some fj) :
    setup_fabric env config_json instance_dir ja =
      Except.ok (some fj, ja ++ fj.arguments.jvm) := by
  simp [setup_fabric, hm, get_fabric_json, hf]

theorem setup_fabric_inactive (env : Env) (config_json : InstanceConfigJson)
    (instance_dir : Path) (ja : List String)
    (hm : config_json.mod_type ≠ "Fabric") :
    setup_fabric env config_json instance_dir ja = Except.ok (none, ja) := by
  simp [setup_fabric, hm]

theorem setup_fabric_missing (env : Env) (config_json : InstanceConfigJson)
    (instance_dir : Path) (ja : List String)
    (hm : config_json.mod_type = "Fabric")
    (hf : env.fabric (instance_dir ++ ["fabric.json"]) = none) :
    setup_fabric env config_json instance_dir ja =
      Except.error (LErr.jsonFileError (instance_dir ++ ["fabric.json"])) := by
  simp [setup_fabric, hm, get_fabric_json, hf]

theorem setup_logging_none (env : Env) (version_json : VersionDetails)
    (instance_dir : Path) (ja : List String) (h : version_json.logging = none) :
    setup_logging env version_json instance_dir ja = Except.ok ja := by
  simp [setup_logging, h]

theorem setup_logging_some (env : Env) (version_json : VersionDetails)
    (instance_dir : Path) (ja : List String) (lg : Logging) (s : String)
    (h : version_json.logging = some lg)
    (hts : env.toStr (instance_dir ++ ["logging-" ++ lg.client.file.id]) = some s) :
    setup_logging env version_json instance_dir ja =
      Except.ok (ja ++ ["-Dlog4j.configurationFile=\"" ++ s ++ "\""]) := by
  simp [setup_logging, h, hts]

theorem setup_logging_bad (env : Env) (version_json : VersionDetails)
    (instance_dir : Path) (ja : List String) (lg : Logging)
    (h : version_json.logging = some lg)
    (hts : env.toStr (instance_dir ++ ["logging-" ++ lg.client.file.id]) = none) :
    setup_logging env version_json instance_dir ja =
      Except.error (LErr.pathBufToString
        (instance_dir ++ ["logging-" ++ lg.client.file.id])) := by
  simp [setup_logging, h, hts]

theorem setup_classpath_ok (env : Env) (fs : Fs) (ja : List String)
    (version_json : VersionDetails) (instance_dir : Path)
    (fabric_json : Option FabricJSON) (cp : String)
    (h : get_class_path env fs version_json instance_dir fabric_json = Except.ok cp) :
    setup_classpath_and_mainclass env fs ja version_json instance_dir fabric_json =
      Except.ok (ja ++ ["-cp", cp, mainClassOf fabric_json version_json]) := by
  cases fabric_json with
  | none => simp [setup_classpath_and_mainclass, h, mainClassOf]
  | some fj => simp [setup_classpath_and_mainclass, h, mainClassOf]

/-- The JVM-argument prefix assembled before the mod-loader arguments
(lines 81-96): base flags, then the legacy proxy flag when the version type
is one of the two legacy markers. -/
def baseJavaArguments (config_json : InstanceConfigJson)
    (version_json : VersionDetails) (ns : String) : List String :=
  ["-Xss1M", "-Dminecraft.launcher.brand=minecraft-launcher",
   "-Dminecraft.launcher.version=2.1.1349",
   "-Djava.library.path=" ++ ns,
   config_json.get_ram_argument] ++
  (if version_json.type = "old_beta" ∨ version_json.type = "old_alpha"
   then ["-Dhttp.proxyHost=betacraft.uk"] else [])

/-- Canonical decomposition of a successfully composed JVM argument list. -/
theorem composeJavaArguments_shape (env : Env) (fs : Fs)
    (config_json : InstanceConfigJson) (version_json : VersionDetails)
    (instance_dir : Path) (args : List String)
    (h : composeJavaArguments env fs config_json version_json instance_dir =
      Except.ok args) :
    ∃ ns fabricOpt logArgs cp,
      env.toStr (instance_dir ++ ["libraries", "natives"]) = some ns ∧
      (match fabricOpt with
       | some fj => config_json.mod_type = "Fabric" ∧
           env.fabric (instance_dir ++ ["fabric.json"]) = some fj
       | none => config_json.mod_type ≠ "Fabric") ∧
      get_class_path env fs version_json instance_dir fabricOpt = Except.ok cp ∧
      ((logArgs = [] ∧ version_json.logging = none) ∨
        ∃ lg s, version_json.logging = some lg ∧
          env.toStr (instance_dir ++ ["logging-" ++ lg.client.file.id]) = some s ∧
          logArgs = ["-Dlog4j.configurationFile=\"" ++ s ++ "\""]) ∧
      args = baseJavaArguments config_json version_json ns ++
        fabricJvmOf fabricOpt ++ logArgs ++
        ["-cp", cp, mainClassOf fabricOpt version_json] := by
  cases hts : env.toStr (instance_dir ++ ["libraries", "natives"]) with
  | none =>
    rw [composeJavaArguments, hts] at h
    cases h
  | some ns =>
    have hcompose : composeJavaArguments env fs config_json version_json instance_dir =
        (match setup_fabric env config_json instance_dir
            (if version_json.type = "old_beta" ∨ version_json.type = "old_alpha"
             then ["-Xss1M", "-Dminecraft.launcher.brand=minecraft-launcher",
               "-Dminecraft.launcher.version=2.1.1349",
               "-Djava.library.path=" ++ ns,
               config_json.get_ram_argument] ++ ["-Dhttp.proxyHost=betacraft.uk"]
             else ["-Xss1M", "-Dminecraft.launcher.brand=minecraft-launcher",
               "-Dminecraft.launcher.version=2.1.1349",
               "-Djava.library.path=" ++ ns,
               config_json.get_ram_argument]) with
         | Except.error e => Except.error e
         | Except.ok (fabric_json, java_arguments) =>
           match setup_logging env version_json instance_dir java_arguments with
           | Except.error e => Except.error e
           | Except.ok java_arguments =>
             setup_classpath_and_mainclass env fs java_arguments version_json
               instance_dir fabric_json) := by
      rw [composeJavaArguments, hts]
    rw [hcompose] at h
    have hbase : (if version_json.type = "old_beta" ∨ version_json.type = "old_alpha"
        then ["-Xss1M", "-Dminecraft.launcher.brand=minecraft-launcher",
          "-Dminecraft.launcher.version=2.1.1349",
          "-Djava.library.path=" ++ ns,
          config_json.get_ram_argument] ++ ["-Dhttp.proxyHost=betacraft.uk"]
        else ["-Xss1M", "-Dminecraft.launcher.brand=minecraft-launcher",
          "-Dminecraft.launcher.version=2.1.1349",
          "-Djava.library.path=" ++ ns,
          config_json.get_ram_argument]) =
        baseJavaArguments config_json version_json ns := by
      rw [baseJavaArguments]
      split
      · rfl
      · simp
    rw [hbase] at h
    by_cases hm : config_json.mod_type = "Fabric"
    · cases hfj : env.fabric (instance_dir ++ ["fabric.json"]) with
      | none =>
        rw [setup_fabric_missing env config_json instance_dir _ hm hfj] at h
        try dsimp only at h
        cases h
      | some fj =>
        rw [setup_fabric_active env config_json instance_dir _ fj hm hfj] at h
        try dsimp only at h
        cases hlog : version_json.logging with
        | none =>
          rw [setup_logging_none env version_json instance_dir _ hlog] at h
          try dsimp only at h
          cases hcp : get_class_path env fs version_json instance_dir (some fj) with
          | error e =>
            rw [setup_classpath_and_mainclass, hcp] at h
            try dsimp only at h
            cases h
          | ok cp =>
            rw [setup_classpath_ok env fs _ version_json instance_dir (some fj) cp hcp]
              at h
            refine ⟨ns, some fj, [], cp, rfl, ⟨hm, rfl⟩, hcp, Or.inl ⟨rfl, rfl⟩, ?_⟩
            injection h.symm with harg
            try simp [harg, fabricJvmOf, mainClassOf]
        | some lg =>
          cases hlts : env.toStr (instance_dir ++ ["logging-" ++ lg.client.file.id]) with
          | none =>
            rw [setup_logging_bad env version_json instance_dir _ lg hlog hlts] at h
            try dsimp only at h
            cases h
          | some s =>
            rw [setup_logging_some env version_json instance_dir _ lg s hlog hlts] at h
            try dsimp only at h
            cases hcp : get_class_path env fs version_json instance_dir (some fj) with
            | error e =>
              rw [setup_classpath_and_mainclass, hcp] at h
              try dsimp only at h
              cases h
            | ok cp =>
              rw [setup_classpath_ok env fs _ version_json instance_dir (some fj) cp hcp]
                at h
              refine ⟨ns, some fj, ["-Dlog4j.configurationFile=\"" ++ s ++ "\""], cp,
                rfl, ⟨hm, rfl⟩, hcp, Or.inr ⟨lg, s, rfl, hlts, rfl⟩, ?_⟩
              injection h.symm with harg
              try simp [harg, fabricJvmOf, mainClassOf]
    · rw [setup_fabric_inactive env config_json instance_dir _ hm] at h
      try dsimp only at h
      cases hlog : version_json.logging with
      | none =>
        rw [setup_logging_none env version_json instance_dir _ hlog] at h
        try dsimp only at h
        cases hcp : get_class_path env fs version_json instance_dir none with
        | error e =>
          rw [setup_classpath_and_mainclass, hcp] at h
          try dsimp only at h
          cases h
        | ok cp =>
          rw [setup_classpath_ok env fs _ version_json instance_dir none cp hcp] at h
          try dsimp only at h
          refine ⟨ns, none, [], cp, rfl, hm, hcp, Or.inl ⟨rfl, rfl⟩, ?_⟩
          injection h.symm with harg
          try simp [harg, fabricJvmOf, mainClassOf]
      | some lg =>
        cases hlts : env.toStr (instance_dir ++ ["logging-" ++ lg.client.file.id]) with
        | none =>
          rw [setup_logging_bad env version_json instance_dir _ lg hlog hlts] at h
          try dsimp only at h
          cases h
        | some s =>
          rw [setup_logging_some env version_json instance_dir _ lg s hlog hlts] at h
          try dsimp only at h
          cases hcp : get_class_path env fs version_json instance_dir none with
          | error e =>
            rw [setup_classpath_and_mainclass, hcp] at h
            try dsimp only at h
            cases h
          | ok cp =>
            rw [setup_classpath_ok env fs _ version_json instance_dir none cp hcp] at h
            try dsimp only at h
            refine ⟨ns, none, ["-Dlog4j.configurationFile=\"" ++ s ++ "\""], cp,
              rfl, hm, hcp, Or.inr ⟨lg, s, rfl, hlts, rfl⟩, ?_⟩
            injection h.symm with harg
            try simp [harg, fabricJvmOf, mainClassOf]


/-! ## String-index helper lemmas -/

theorem strNeAt (a b : String) (i : Nat) (c d : Char)
    (hc : a.data[i]? = some c) (hd : b.data[i]? = some d) (hcd : c ≠ d) : a ≠ b := by
  intro h
  subst h
  rw [hc] at hd
  exact hcd (Option.some.inj hd)

theorem dataAppendGet (s t : String) (i : Nat) (h : i < s.data.length) :
    (s ++ t).data[i]? = s.data[i]? := by
  rw [String.data_append, List.getElem?_append, if_pos h]

theorem toStr_some_eq (env : Env) (p : Path) (s : String)
    (h : env.toStr p = some s) : s = renderPath p := by
  rw [Env.toStr] at h
  split at h
  · exact (Option.some.inj h).symm
  · cases h

theorem renderPath_head (p : Path) : (renderPath p).data[0]? = some '/' := by
  rw [renderPath, String.data_append]
  rw [show ("/" : String).data = ['/'] from rfl]
  simp

theorem slashHead_append_left (a b : String) (ha : a.data[0]? = some '/') :
    (a ++ b).data[0]? = some '/' := by
  have hlen : 0 < a.data.length := by
    cases hd : a.data with
    | nil => rw [hd] at ha; cases ha
    | cons x xs => simp [hd]
  rw [dataAppendGet a b 0 hlen]
  exact ha

theorem slashHead_append (a b : String) (ha : slashHead a) (hb : slashHead b) :
    slashHead (a ++ b) := by
  rcases ha with ha | ha
  · have hdata : (a ++ b).data = b.data := by
      rw [String.data_append, ha]
      rfl
    rcases hb with hb | hb
    · exact Or.inl (by rw [hdata, hb])
    · exact Or.inr (by rw [hdata]; exact hb)
  · exact Or.inr (slashHead_append_left a b ha)

theorem slashHead_extend (acc : String) (p : Path) (hacc : slashHead acc) :
    slashHead (acc ++ renderPath p ++ CLASSPATH_SEPARATOR) := by
  have h1 : slashHead (acc ++ renderPath p) :=
    slashHead_append acc (renderPath p) hacc (Or.inr (renderPath_head p))
  rcases h1 with h1 | h1
  · exfalso
    have := renderPath_head p
    rw [String.data_append] at h1
    rcases List.append_eq_nil.mp h1 with ⟨-, h2⟩
    rw [h2] at this
    cases this
  · exact Or.inr (slashHead_append_left _ _ h1)

theorem classPathLibs_slashHead (env : Env) (fs : Fs) (instance_dir : Path) :
    ∀ arts (acc r : String), slashHead acc →
      classPathLibs env fs instance_dir arts acc = Except.ok r → slashHead r := by
  intro arts
  induction arts with
  | nil =>
    intro acc r hacc h
    rw [classPathLibs] at h
    exact (Except.ok.inj h) ▸ hacc
  | cons a rest ih =>
    intro acc r hacc h
    rw [classPathLibs] at h
    by_cases hex : existsPath fs (instance_dir ++ ["libraries", a.path]) = true
    · rw [if_pos hex] at h
      cases hts : env.toStr (instance_dir ++ ["libraries", a.path]) with
      | none => rw [hts] at h; cases h
      | some s =>
        rw [hts] at h
        have hs := toStr_some_eq env _ s hts
        subst hs
        exact ih _ r (slashHead_extend acc _ hacc) h
    · rw [if_neg hex] at h
      exact ih acc r hacc h

theorem classPathFabricLibs_slashHead (env : Env) (instance_dir : Path) :
    ∀ libs (acc r : String), slashHead acc →
      classPathFabricLibs env instance_dir libs acc = Except.ok r → slashHead r := by
  intro libs
  induction libs with
  | nil =>
    intro acc r hacc h
    rw [classPathFabricLibs] at h
    exact (Except.ok.inj h) ▸ hacc
  | cons l rest ih =>
    intro acc r hacc h
    rw [classPathFabricLibs] at h
    cases hts : env.toStr (instance_dir ++ ["libraries", l.get_path]) with
    | none => rw [hts] at h; cases h
    | some s =>
      rw [hts] at h
      have hs := toStr_some_eq env _ s hts
      subst hs
      exact ih _ r (slashHead_extend acc _ hacc) h

theorem get_class_path_slash (env : Env) (fs : Fs) (version_json : VersionDetails)
    (instance_dir : Path) (fabric_json : Option FabricJSON) (cp : String)
    (h : get_class_path env fs version_json instance_dir fabric_json = Except.ok cp) :
    cp.data[0]? = some '/' := by
  rw [get_class_path] at h
  cases hcl : classPathLibs env fs instance_dir
      (version_json.libraries.filterMap fun n =>
        match n.downloads with
        | some (LibraryDownloads.Normal artifact) => some artifact
        | _ => none) "" with
  | error e => rw [hcl] at h; cases h
  | ok clp =>
    rw [hcl] at h
    try dsimp only at h
    have hclp : slashHead clp :=
      classPathLibs_slashHead env fs instance_dir _ "" clp (Or.inl rfl) hcl
    cases fabric_json with
    | none =>
      try dsimp only at h
      cases hts : env.toStr (instance_dir ++ [".minecraft", "versions",
          version_json.id, version_json.id ++ ".jar"]) with
      | none => rw [hts] at h; cases h
      | some jar_str =>
        rw [hts] at h
        try dsimp only at h
        have hj := toStr_some_eq env _ jar_str hts
        subst hj
        injection h with h
        subst h
        rcases hclp with hclp | hclp
        · have : (clp ++ renderPath (instance_dir ++ [".minecraft", "versions",
              version_json.id, version_json.id ++ ".jar"])).data =
              (renderPath (instance_dir ++ [".minecraft", "versions",
                version_json.id, version_json.id ++ ".jar"])).data := by
            rw [String.data_append, hclp]
            rfl
          rw [this]
          exact renderPath_head _
        · exact slashHead_append_left _ _ hclp
    | some fj =>
      try dsimp only at h
      cases hcf : classPathFabricLibs env instance_dir fj.libraries clp with
      | error e => rw [hcf] at h; cases h
      | ok clp2 =>
        rw [hcf] at h
        try dsimp only at h
        have hclp2 : slashHead clp2 :=
          classPathFabricLibs_slashHead env instance_dir fj.libraries clp clp2 hclp hcf
        cases hts : env.toStr (instance_dir ++ [".minecraft", "versions",
            version_json.id, version_json.id ++ ".jar"]) with
        | none => rw [hts] at h; cases h
        | some jar_str =>
          rw [hts] at h
          try dsimp only at h
          have hj := toStr_some_eq env _ jar_str hts
          subst hj
          injection h with h
          subst h
          rcases hclp2 with hclp2 | hclp2
          · have : (clp2 ++ renderPath (instance_dir ++ [".minecraft", "versions",
                version_json.id, version_json.id ++ ".jar"])).data =
                (renderPath (instance_dir ++ [".minecraft", "versions",
                  version_json.id, version_json.id ++ ".jar"])).data := by
              rw [String.data_append, hclp2]
              rfl
            rw [this]
            exact renderPath_head _
          · exact slashHead_append_left _ _ hclp2

/-! ## Claim C6 -/

/-- Claim C6: when the instance config declares the Fabric mod loader (and its
metadata is readable), a successfully composed JVM argument list places the
mod loader's JVM arguments, in declared order, before the `-cp` flag, and the
main class slot holds the mod loader's main class, not the base version's. -/
theorem composeJavaArguments_fabric_precedence (env : Env) (fs : Fs)
    (config_json : InstanceConfigJson) (version_json : VersionDetails)
    (instance_dir : Path) (fj : FabricJSON) (args : List String)
    (hm : config_json.mod_type = "Fabric")
    (hf : env.fabric (instance_dir ++ ["fabric.json"]) = some fj)
    (h : composeJavaArguments env fs config_json version_json instance_dir =
      Except.ok args) :
    ∃ pre logArgs cp,
      args = pre ++ fj.arguments.jvm ++ logArgs ++ ["-cp", cp, fj.mainClass] := by
  obtain ⟨ns, fabricOpt, logArgs, cp, hts, hfab, hcp, hlog, harg⟩ :=
    composeJavaArguments_shape env fs config_json version_json instance_dir args h
  cases fabricOpt with
  | none => exact absurd hm hfab
  | some fj2 =>
    obtain ⟨-, hf2⟩ := hfab
    rw [hf] at hf2
    injection hf2 with hf2
    subst hf2
    exact ⟨baseJavaArguments config_json version_json ns, logArgs, cp,
      by rw [harg]; rfl⟩

theorem composeJavaArguments_fabric_precedence_witness :
    ∃ pre logArgs cp,
      (["-Xss1M", "-Dminecraft.launcher.brand=minecraft-launcher",
        "-Dminecraft.launcher.version=2.1.1349",
        "-Djava.library.path=/L/instances/I/libraries/natives", "-Xmx2048M",
        "-DFabricMcEmu=net.minecraft.client.main.Main", "-cp",
        "/L/instances/I/libraries/fabric-loader.jar:" ++
          "/L/instances/I/.minecraft/versions/1.20/1.20.jar",
        "net.fabricmc.loader.launch.knot.KnotClient"] : List String) =
      pre ++ fjW.arguments.jvm ++ logArgs ++
        ["-cp", cp, fjW.mainClass] :=
  composeJavaArguments_fabric_precedence envFabric [] cfgFabric vjC1 dirI fjW _
    rfl rfl rfl

/-! ## Claim C9 -/

/-- Claim C9, refuting the unconditional form: the composer only *adds* the
proxy flag for "old_beta"/"old_alpha", but `setup_fabric` pushes the mod
loader's JVM arguments verbatim, so a release-type version whose
`fabric.json` declares the flag among its JVM arguments composes successfully
with the flag present. -/
theorem composeJavaArguments_proxy_fabric_counterexample :
    (¬ (vjC1.type = "old_beta" ∨ vjC1.type = "old_alpha")) ∧
    ∃ args,
      composeJavaArguments envFabricProxy [] cfgFabric vjC1 dirI =
        Except.ok args ∧
      "-Dhttp.proxyHost=betacraft.uk" ∈ args :=
  ⟨by decide, _, rfl, by decide⟩

/-- Claim C9 (amended): a successfully composed JVM argument list contains the
legacy network-compatibility proxy flag exactly when the version metadata's
type tag is "old_beta" or "old_alpha", for launches whose metadata-supplied
strings (mod-loader JVM arguments and main class, base main class) do not
themselves spell the proxy flag; mod-loader metadata that spells it is pushed
verbatim and makes the flag appear regardless of the type tag. -/
theorem composeJavaArguments_proxy_iff (env : Env) (fs : Fs)
    (config_json : InstanceConfigJson) (version_json : VersionDetails)
    (instance_dir : Path) (args : List String)
    (h : composeJavaArguments env fs config_json version_json instance_dir =
      Except.ok args)
    (hfab : ∀ fj, env.fabric (instance_dir ++ ["fabric.json"]) = some fj →
      "-Dhttp.proxyHost=betacraft.uk" ∉ fj.arguments.jvm ∧
      fj.mainClass ≠ "-Dhttp.proxyHost=betacraft.uk")
    (hmc : version_json.mainClass ≠ "-Dhttp.proxyHost=betacraft.uk") :
    ("-Dhttp.proxyHost=betacraft.uk" ∈ args ↔
      (version_json.type = "old_beta" ∨ version_json.type = "old_alpha")) := by
  obtain ⟨ns, fabricOpt, logArgs, cp, hts, hfabm, hcp, hlog, harg⟩ :=
    composeJavaArguments_shape env fs config_json version_json instance_dir args h
  subst harg
  have hne_lib : "-Dhttp.proxyHost=betacraft.uk" ≠ "-Djava.library.path=" ++ ns := by
    refine strNeAt _ _ 2 'h' 'j' rfl ?_ (by decide)
    rw [dataAppendGet _ _ 2 (by decide)]
    rfl
  have hne_ram : "-Dhttp.proxyHost=betacraft.uk" ≠ config_json.get_ram_argument := by
    rw [InstanceConfigJson.get_ram_argument]
    refine strNeAt _ _ 1 'D' 'X' rfl ?_ (by decide)
    rw [dataAppendGet _ _ 1 ?_]
    · rw [dataAppendGet _ _ 1 (by decide)]
      rfl
    · rw [String.data_append]
      simp
  have hne_cp : "-Dhttp.proxyHost=betacraft.uk" ≠ cp := by
    refine strNeAt _ _ 0 '-' '/' rfl ?_ (by decide)
    exact get_class_path_slash env fs version_json instance_dir fabricOpt cp hcp
  have hne_mcl : "-Dhttp.proxyHost=betacraft.uk" ≠ mainClassOf fabricOpt version_json := by
    cases fabricOpt with
    | none => exact fun hh => hmc hh.symm
    | some fj =>
      obtain ⟨-, hf⟩ := hfabm
      exact fun hh => ((hfab fj hf).2) hh.symm
  have hne_jvm : "-Dhttp.proxyHost=betacraft.uk" ∉ fabricJvmOf fabricOpt := by
    cases fabricOpt with
    | none => simp [fabricJvmOf]
    | some fj =>
      obtain ⟨-, hf⟩ := hfabm
      exact (hfab fj hf).1
  have hne_log : "-Dhttp.proxyHost=betacraft.uk" ∉ logArgs := by
    rcases hlog with ⟨hl, -⟩ | ⟨lg, s, -, -, hl⟩
    · simp [hl]
    · rw [hl]
      intro hmem
      rcases List.mem_cons.mp hmem with hmem | hmem
      · revert hmem
        refine strNeAt _ _ 2 'h' 'l' rfl ?_ (by decide)
        rw [dataAppendGet _ _ 2 ?_]
        · rw [dataAppendGet _ _ 2 (by decide)]
          rfl
        · rw [String.data_append]
          simp
      · cases hmem
  constructor
  · intro hmem
    rw [baseJavaArguments] at hmem
    simp only [List.append_assoc, List.mem_append] at hmem
    rcases hmem with hmem | hmem | hmem | hmem | hmem
    · exfalso
      simp only [List.mem_cons, List.not_mem_nil, or_false] at hmem
      rcases hmem with h1 | h1 | h1 | h1 | h1
      · exact absurd h1 (by decide)
      · exact absurd h1 (by decide)
      · exact absurd h1 (by decide)
      · exact hne_lib h1
      · exact hne_ram h1
    · by_cases hcond : version_json.type = "old_beta" ∨ version_json.type = "old_alpha"
      · exact hcond
      · rw [if_neg hcond] at hmem
        cases hmem
    · exact absurd hmem hne_jvm
    · exact absurd hmem hne_log
    · exfalso
      simp only [List.mem_cons, List.not_mem_nil, or_false] at hmem
      rcases hmem with h1 | h1 | h1
      · exact absurd h1 (by decide)
      · exact hne_cp h1
      · exact hne_mcl h1
  · intro hcond
    rw [baseJavaArguments]
    simp only [List.append_assoc, List.mem_append]
    right
    left
    rw [if_pos hcond]
    simp

theorem composeJavaArguments_proxy_iff_witness :
    "-Dhttp.proxyHost=betacraft.uk" ∈
      (["-Xss1M", "-Dminecraft.launcher.brand=minecraft-launcher",
        "-Dminecraft.launcher.version=2.1.1349",
        "-Djava.library.path=/L/instances/I/libraries/natives", "-Xmx2048M",
        "-Dhttp.proxyHost=betacraft.uk", "-cp",
        "/L/instances/I/.minecraft/versions/b1.7.3/b1.7.3.jar",
        "Main"] : List String) :=
  (composeJavaArguments_proxy_iff envRootOnly [] cfgVanilla vjTabArgs dirI _
      rfl
      (fun fj hf => absurd hf (by simp [envRootOnly]))
      (by decide)).mpr
    (Or.inl rfl)



/-! ## Claim C4: error characterization of every pipeline stage -/

theorem toStr_rootGood_some (env : Env) (p : Path) (h : env.rootGood = true) :
    env.toStr p = some (renderPath p) := by
  rw [Env.toStr, if_pos h]

theorem toStr_some_rootGood (env : Env) (p : Path) (s : String)
    (h : env.toStr p = some s) : env.rootGood = true := by
  cases hr : env.rootGood with
  | false => rw [Env.toStr, hr] at h; simp at h
  | true => rfl

theorem writeFile_err (fs : Fs) (p : Path) (c : String) (fs' : Fs) (e : LErr)
    (h : writeFile fs p c = (fs', some e)) : e = LErr.ioError p := by
  rw [writeFile] at h
  split at h
  · injection h with h1 h2; cases h2
  · injection h with h1 h2; cases h2
  · injection h with h1 h2; exact (Option.some.inj h2).symm

theorem removeDirAll_err (fs : Fs) (p : Path) (fs' : Fs) (e : LErr)
    (h : removeDirAll fs p = (fs', some e)) : e = LErr.ioError p := by
  rw [removeDirAll] at h
  split at h
  · injection h with h1 h2; cases h2
  · injection h with h1 h2; exact (Option.some.inj h2).symm

theorem copyEntry_err (go : Fs → Path → Path → Fs × Option LErr) (src dst : Path)
    (hgo : ∀ fs p q fs' e, go fs p q = (fs', some e) → ∃ r, e = LErr.ioError r)
    (fs : Fs) (name : String) (fs' : Fs) (e : LErr)
    (h : copyEntry go src dst fs name = (fs', some e)) : ∃ r, e = LErr.ioError r := by
  rw [copyEntry] at h
  by_cases hd : isDir fs (src ++ [name]) = true
  · rw [if_pos hd] at h
    exact hgo _ _ _ _ _ h
  · rw [if_neg hd] at h
    cases hl : lookupEntry fs (src ++ [name]) with
    | none =>
      rw [hl] at h
      try dsimp only at h
      injection h with h1 h2
      exact ⟨src ++ [name], (Option.some.inj h2).symm⟩
    | some en =>
      cases en with
      | file c =>
        rw [hl] at h
        try dsimp only at h
        exact ⟨dst ++ [name], writeFile_err _ _ _ _ _ h⟩
      | dir =>
        rw [hl] at h
        try dsimp only at h
        injection h with h1 h2
        exact ⟨src ++ [name], (Option.some.inj h2).symm⟩

theorem copyEntries_err (go : Fs → Path → Path → Fs × Option LErr) (src dst : Path)
    (hgo : ∀ fs p q fs' e, go fs p q = (fs', some e) → ∃ r, e = LErr.ioError r) :
    ∀ (names : List String) (fs fs' : Fs) (e : LErr),
      copyEntries go src dst names fs = (fs', some e) → ∃ r, e = LErr.ioError r := by
  intro names
  induction names with
  | nil =>
    intro fs fs' e h
    rw [copyEntries] at h
    injection h with h1 h2
    cases h2
  | cons name rest ih =>
    intro fs fs' e h
    rw [copyEntries] at h
    cases hstep : copyEntry go src dst fs name with
    | mk fs2 oerr =>
      rw [hstep] at h
      cases oerr with
      | some e2 =>
        try dsimp only at h
        injection h with h1 h2
        exact (Option.some.inj h2) ▸ copyEntry_err go src dst hgo fs name fs2 e2 hstep
      | none =>
        try dsimp only at h
        exact ih fs2 fs' e h

theorem copy_err : ∀ (fuel : Nat) (fs : Fs) (src dst : Path) (fs' : Fs) (e : LErr),
    copy_dir_recursive fuel fs src dst = (fs', some e) → ∃ p, e = LErr.ioError p := by
  intro fuel
  induction fuel with
  | zero =>
    intro fs src dst fs' e h
    rw [copy_dir_recursive] at h
    injection h with h1 h2
    exact ⟨src, (Option.some.inj h2).symm⟩
  | succ fuel ih =>
    intro fs src dst fs' e h
    rw [copy_dir_recursive] at h
    cases hc : (if existsPath fs dst then some fs else createDirAll fs dst) with
    | none =>
      rw [hc] at h
      try dsimp only at h
      injection h with h1 h2
      exact ⟨dst, (Option.some.inj h2).symm⟩
    | some fs1 =>
      rw [hc] at h
      try dsimp only at h
      cases hrd : readDir fs1 src with
      | none =>
        rw [hrd] at h
        try dsimp only at h
        injection h with h1 h2
        exact ⟨src, (Option.some.inj h2).symm⟩
      | some names =>
        rw [hrd] at h
        try dsimp only at h
        exact copyEntries_err (copy_dir_recursive fuel) src dst ih names fs1 fs' e h

theorem migrate_err (fuel : Nat) (fs : Fs) (old_assets_path assets_path : Path)
    (fs' : Fs) (e : LErr)
    (h : migrate_to_new_assets_path fuel fs old_assets_path assets_path =
      (fs', some e)) : ∃ p, e = LErr.ioError p := by
  rw [migrate_to_new_assets_path] at h
  cases hc : copy_dir_recursive fuel fs old_assets_path assets_path with
  | mk fs2 oerr =>
    rw [hc] at h
    cases oerr with
    | some e2 =>
      try dsimp only at h
      injection h with h1 h2
      exact (Option.some.inj h2) ▸ copy_err fuel fs old_assets_path assets_path fs2 e2 hc
    | none =>
      try dsimp only at h
      exact ⟨old_assets_path, removeDirAll_err fs2 old_assets_path fs' e h⟩

theorem templateArg_err (fuel : Nat) (env : Env) (fs : Fs)
    (version_json : VersionDetails) (username : String)
    (minecraft_dir instance_dir : Path) (argument : String) (fs' : Fs) (e : LErr)
    (h : templateArg fuel env fs version_json username minecraft_dir instance_dir
      argument = (Except.error e, fs')) : ErrOK env e := by
  rw [templateArg] at h
  cases hts : env.toStr minecraft_dir with
  | none =>
    rw [hts] at h
    try dsimp only at h
    injection h with h1 h2
    injection h1 with h1
    rw [h1.symm]
    exact hts
  | some mcs =>
    rw [hts] at h
    try dsimp only at h
    cases hld : env.launcherDir with
    | none =>
      rw [hld] at h
      try dsimp only at h
      injection h with h1 h2
      injection h1 with h1
      rw [h1.symm]
      trivial
    | some launcher_dir =>
      rw [hld] at h
      try dsimp only at h
      by_cases hex : existsPath fs (instance_dir ++ ["assets"]) = true
      · rw [if_pos hex] at h
        cases hmig : migrate_to_new_assets_path fuel fs (instance_dir ++ ["assets"])
            (launcher_dir ++ ["assets", version_json.assetIndex.id]) with
        | mk fs2 oerr =>
          rw [hmig] at h
          cases oerr with
          | some e2 =>
            try dsimp only at h
            injection h with h1 h2
            injection h1 with h1
            obtain ⟨p, hp⟩ := migrate_err _ _ _ _ _ _ hmig
            rw [h1.symm, hp]
            trivial
          | none =>
            try dsimp only at h
            cases hts2 : env.toStr (launcher_dir ++ ["assets", version_json.assetIndex.id]) with
            | none =>
              rw [hts2] at h
              try dsimp only at h
              injection h with h1 h2
              injection h1 with h1
              rw [h1.symm]
              exact hts2
            | some s2 =>
              rw [hts2] at h
              try dsimp only at h
              injection h with h1 h2
              cases h1
      · rw [if_neg hex] at h
        try dsimp only at h
        cases hts2 : env.toStr (launcher_dir ++ ["assets", version_json.assetIndex.id]) with
        | none =>
          rw [hts2] at h
          try dsimp only at h
          injection h with h1 h2
          injection h1 with h1
          rw [h1.symm]
          exact hts2
        | some s2 =>
          rw [hts2] at h
          try dsimp only at h
          injection h with h1 h2
          cases h1

theorem templateArgs_err (fuel : Nat) (env : Env) (version_json : VersionDetails)
    (username : String) (minecraft_dir instance_dir : Path) :
    ∀ (args : List String) (fs fs' : Fs) (e : LErr),
      templateArgs fuel env version_json username minecraft_dir instance_dir args fs =
        (Except.error e, fs') → ErrOK env e := by
  intro args
  induction args with
  | nil =>
    intro fs fs' e h
    rw [templateArgs] at h
    injection h with h1 h2
    cases h1
  | cons a rest ih =>
    intro fs fs' e h
    rw [templateArgs] at h
    cases hta : templateArg fuel env fs version_json username minecraft_dir
        instance_dir a with
    | mk r fs2 =>
      rw [hta] at h
      cases r with
      | error e2 =>
        try dsimp only at h
        injection h with h1 h2
        injection h1 with h1
        exact h1 ▸ templateArg_err fuel env fs version_json username minecraft_dir
          instance_dir a fs2 e2 hta
      | ok a2 =>
        try dsimp only at h
        cases htas : templateArgs fuel env version_json username minecraft_dir
            instance_dir rest fs2 with
        | mk r2 fs3 =>
          rw [htas] at h
          cases r2 with
          | error e2 =>
            try dsimp only at h
            injection h with h1 h2
            injection h1 with h1
            exact h1 ▸ ih fs2 fs3 e2 htas
          | ok rest2 =>
            try dsimp only at h
            injection h with h1 h2
            cases h1

theorem extractArgs_err (version_json : VersionDetails) (e : LErr)
    (h : extractArgs version_json = Except.error e) :
    e = LErr.versionJsonNoArgumentsField := by
  rw [extractArgs] at h
  cases hma : version_json.minecraftArguments with
  | some s => rw [hma] at h; cases h
  | none =>
    rw [hma] at h
    cases ha : version_json.arguments with
    | some a => rw [ha] at h; try dsimp only at h; cases h
    | none =>
      rw [ha] at h
      try dsimp only at h
      injection h with h1
      exact h1.symm

theorem get_arguments_err (fuel : Nat) (env : Env) (fs : Fs)
    (version_json : VersionDetails) (username : String)
    (minecraft_dir instance_dir : Path) (fs' : Fs) (e : LErr)
    (h : get_arguments fuel env fs version_json username minecraft_dir instance_dir =
      (Except.error e, fs')) : ErrOK env e := by
  rw [get_arguments] at h
  cases hex : extractArgs version_json with
  | error e2 =>
    rw [hex] at h
    try dsimp only at h
    injection h with h1 h2
    injection h1 with h1
    rw [h1.symm, extractArgs_err version_json e2 hex]
    trivial
  | ok args =>
    rw [hex] at h
    try dsimp only at h
    exact templateArgs_err fuel env version_json username minecraft_dir instance_dir
      args fs fs' e h

theorem classPathFabricLibs_ok (env : Env) (instance_dir : Path)
    (hroot : env.rootGood = true) :
    ∀ (libs : List FabricLibrary) (acc : String),
      ∃ r, classPathFabricLibs env instance_dir libs acc = Except.ok r := by
  intro libs
  induction libs with
  | nil => intro acc; exact ⟨acc, rfl⟩
  | cons l rest ih =>
    intro acc
    rw [classPathFabricLibs]
    rw [toStr_rootGood_some env _ hroot]
    exact ih _

theorem get_class_path_ok (env : Env) (fs : Fs) (version_json : VersionDetails)
    (instance_dir : Path) (fabric_json : Option FabricJSON)
    (hroot : env.rootGood = true) :
    ∃ cp, get_class_path env fs version_json instance_dir fabric_json =
      Except.ok cp := by
  rw [get_class_path]
  rw [classPathLibs_spec env fs instance_dir hroot version_json.libraries ""]
  cases fabric_json with
  | none =>
    try dsimp only
    rw [toStr_rootGood_some env _ hroot]
    exact ⟨_, rfl⟩
  | some fj =>
    try dsimp only
    obtain ⟨r, hr⟩ := classPathFabricLibs_ok env instance_dir hroot fj.libraries
      ("" ++ classpathLibsSpec fs instance_dir version_json.libraries)
    rw [hr]
    try dsimp only
    rw [toStr_rootGood_some env _ hroot]
    exact ⟨_, rfl⟩

theorem composeJavaArguments_err (env : Env) (fs : Fs)
    (config_json : InstanceConfigJson) (version_json : VersionDetails)
    (instance_dir : Path) (e : LErr)
    (h : composeJavaArguments env fs config_json version_json instance_dir =
      Except.error e) : ErrOK env e := by
  rw [composeJavaArguments] at h
  cases hts : env.toStr (instance_dir ++ ["libraries", "natives"]) with
  | none =>
    rw [hts] at h
    try dsimp only at h
    injection h with h1
    rw [h1.symm]
    exact hts
  | some ns =>
    rw [hts] at h
    try dsimp only at h
    have hroot := toStr_some_rootGood env _ ns hts
    by_cases hm : config_json.mod_type = "Fabric"
    · cases hfj : env.fabric (instance_dir ++ ["fabric.json"]) with
      | none =>
        rw [setup_fabric_missing env config_json instance_dir _ hm hfj] at h
        try dsimp only at h
        injection h with h1
        rw [h1.symm]
        trivial
      | some fj =>
        rw [setup_fabric_active env config_json instance_dir _ fj hm hfj] at h
        try dsimp only at h
        obtain ⟨cp, hcp⟩ := get_class_path_ok env fs version_json instance_dir
          (some fj) hroot
        cases hlog : version_json.logging with
        | none =>
          rw [setup_logging_none env version_json instance_dir _ hlog] at h
          try dsimp only at h
          rw [setup_classpath_ok env fs _ version_json instance_dir (some fj) cp hcp]
            at h
          cases h
        | some lg =>
          rw [setup_logging_some env version_json instance_dir _ lg
            (renderPath (instance_dir ++ ["logging-" ++ lg.client.file.id])) hlog
            (toStr_rootGood_some env _ hroot)] at h
          try dsimp only at h
          rw [setup_classpath_ok env fs _ version_json instance_dir (some fj) cp hcp]
            at h
          cases h
    · rw [setup_fabric_inactive env config_json instance_dir _ hm] at h
      try dsimp only at h
      obtain ⟨cp, hcp⟩ := get_class_path_ok env fs version_json instance_dir none hroot
      cases hlog : version_json.logging with
      | none =>
        rw [setup_logging_none env version_json instance_dir _ hlog] at h
        try dsimp only at h
        rw [setup_classpath_ok env fs _ version_json instance_dir none cp hcp] at h
        cases h
      | some lg =>
        rw [setup_logging_some env version_json instance_dir _ lg
          (renderPath (instance_dir ++ ["logging-" ++ lg.client.file.id])) hlog
          (toStr_rootGood_some env _ hroot)] at h
        try dsimp only at h
        rw [setup_classpath_ok env fs _ version_json instance_dir none cp hcp] at h
        cases h

theorem get_instance_dir_err (env : Env) (fs : Fs) (instance_name : String)
    (fs' : Fs) (e : LErr)
    (h : get_instance_dir env fs instance_name = (Except.error e, fs')) :
    ErrOK env e := by
  rw [get_instance_dir] at h
  by_cases hn : instance_name = ""
  · rw [if_pos hn] at h
    injection h with h1 h2
    injection h1 with h1
    rw [h1.symm]
    trivial
  · rw [if_neg hn] at h
    cases hld : env.launcherDir with
    | none =>
      rw [hld] at h
      try dsimp only at h
      injection h with h1 h2
      injection h1 with h1
      rw [h1.symm]
      trivial
    | some launcher_dir =>
      rw [hld] at h
      try dsimp only at h
      cases hc1 : createDirAll fs launcher_dir with
      | none =>
        rw [hc1] at h
        try dsimp only at h
        injection h with h1 h2
        injection h1 with h1
        rw [h1.symm]
        trivial
      | some fs1 =>
        rw [hc1] at h
        try dsimp only at h
        cases hc2 : createDirAll fs1 (launcher_dir ++ ["instances"]) with
        | none =>
          rw [hc2] at h
          try dsimp only at h
          injection h with h1 h2
          injection h1 with h1
          rw [h1.symm]
          trivial
        | some fs2 =>
          rw [hc2] at h
          try dsimp only at h
          by_cases hex : existsPath fs2 (launcher_dir ++ ["instances"] ++
              [instance_name]) = true
          · rw [if_pos hex] at h
            injection h with h1 h2
            cases h1
          · rw [if_neg hex] at h
            injection h with h1 h2
            injection h1 with h1
            rw [h1.symm]
            trivial

theorem get_config_err (env : Env) (instance_dir : Path) (e : LErr)
    (h : get_config env instance_dir = Except.error e) :
    e = LErr.jsonFileError (instance_dir ++ ["config.json"]) := by
  rw [get_config] at h
  cases hc : env.config (instance_dir ++ ["config.json"]) with
  | some c => rw [hc] at h; cases h
  | none =>
    rw [hc] at h
    injection h with h1
    exact h1.symm

theorem read_version_json_err (env : Env) (instance_dir : Path) (e : LErr)
    (h : read_version_json env instance_dir = Except.error e) :
    e = LErr.jsonFileError (instance_dir ++ ["details.json"]) := by
  rw [read_version_json] at h
  cases hc : env.details (instance_dir ++ ["details.json"]) with
  | some c => rw [hc] at h; cases h
  | none =>
    rw [hc] at h
    injection h with h1
    exact h1.symm

theorem launch_err (fuel : Nat) (env : Env) (fs : Fs)
    (instance_name username : String) (fs' : Fs) (e : LErr)
    (h : launch fuel env fs instance_name username = (Except.error e, fs')) :
    ErrOK env e := by
  rw [launch] at h
  by_cases hguard : (username.data.contains ' ' || decide (username = "")) = true
  · rw [if_pos hguard] at h
    injection h with h1 h2
    injection h1 with h1
    rw [h1.symm]
    trivial
  · rw [if_neg hguard] at h
    cases hgid : get_instance_dir env fs instance_name with
    | mk r fs1 =>
      rw [hgid] at h
      cases r with
      | error e2 =>
        try dsimp only at h
        injection h with h1 h2
        injection h1 with h1
        exact h1 ▸ get_instance_dir_err env fs instance_name fs1 e2 hgid
      | ok instance_dir =>
        try dsimp only at h
        cases hmk : createDirAll fs1 (instance_dir ++ [".minecraft"]) with
        | none =>
          rw [hmk] at h
          try dsimp only at h
          injection h with h1 h2
          injection h1 with h1
          rw [h1.symm]
          trivial
        | some fs2 =>
          rw [hmk] at h
          try dsimp only at h
          cases hcfg : get_config env instance_dir with
          | error e2 =>
            rw [hcfg] at h
            try dsimp only at h
            injection h with h1 h2
            injection h1 with h1
            rw [h1.symm, get_config_err env instance_dir e2 hcfg]
            trivial
          | ok config_json =>
            rw [hcfg] at h
            try dsimp only at h
            cases hvj : read_version_json env instance_dir with
            | error e2 =>
              rw [hvj] at h
              try dsimp only at h
              injection h with h1 h2
              injection h1 with h1
              rw [h1.symm, read_version_json_err env instance_dir e2 hvj]
              trivial
            | ok version_json =>
              rw [hvj] at h
              try dsimp only at h
              cases hga : get_arguments fuel env fs2 version_json username
                  (instance_dir ++ [".minecraft"]) instance_dir with
              | mk r2 fs3 =>
                rw [hga] at h
                cases r2 with
                | error e2 =>
                  try dsimp only at h
                  injection h with h1 h2
                  injection h1 with h1
                  exact h1 ▸ get_arguments_err fuel env fs2 version_json username
                    (instance_dir ++ [".minecraft"]) instance_dir fs3 e2 hga
                | ok game_arguments =>
                  try dsimp only at h
                  cases hcj : composeJavaArguments env fs3 config_json version_json
                      instance_dir with
                  | error e2 =>
                    rw [hcj] at h
                    try dsimp only at h
                    injection h with h1 h2
                    injection h1 with h1
                    exact h1 ▸ composeJavaArguments_err env fs3 config_json
                      version_json instance_dir e2 hcj
                  | ok java_arguments =>
                    rw [hcj] at h
                    try dsimp only at h
                    injection h with h1 h2
                    cases h1

theorem composeJavaArguments_ok_rootGood (env : Env) (fs : Fs)
    (config_json : InstanceConfigJson) (version_json : VersionDetails)
    (instance_dir : Path) (args : List String)
    (h : composeJavaArguments env fs config_json version_json instance_dir =
      Except.ok args) : env.rootGood = true := by
  rw [composeJavaArguments] at h
  cases hts : env.toStr (instance_dir ++ ["libraries", "natives"]) with
  | none => rw [hts] at h; cases h
  | some ns => exact toStr_some_rootGood env _ ns hts

/-- Claim C4: the pipeline never panics — in particular the `.unwrap()` on a
mod-loader library path (line 224) is unreachable, because all pipeline paths
share the launcher root and an unconvertible root is already rejected with a
typed error at the native-library path (lines 85-90) before the classpath is
built; every path-encoding failure is reported as a typed `pathBufToString`
error naming a path whose conversion really fails; and with an unconvertible
root no launch ever succeeds. -/
theorem launch_no_panic (fuel : Nat) (env : Env) (fs : Fs)
    (instance_name username : String) :
    ((launch fuel env fs instance_name username).1 ≠
      Except.error LErr.panicUnwrap) ∧
    (∀ p, (launch fuel env fs instance_name username).1 =
        Except.error (LErr.pathBufToString p) → env.toStr p = none) ∧
    (env.rootGood = false →
      ∀ r, (launch fuel env fs instance_name username).1 ≠ Except.ok r) := by
  refine ⟨?_, ?_, ?_⟩
  · intro hcontra
    have h : launch fuel env fs instance_name username =
        (Except.error LErr.panicUnwrap,
          (launch fuel env fs instance_name username).2) := by
      rw [hcontra.symm]
    exact launch_err fuel env fs instance_name username _ _ h
  · intro p hcontra
    have h : launch fuel env fs instance_name username =
        (Except.error (LErr.pathBufToString p),
          (launch fuel env fs instance_name username).2) := by
      rw [hcontra.symm]
    exact launch_err fuel env fs instance_name username _ _ h
  · intro hroot r hcontra
    rw [launch] at hcontra
    by_cases hguard : (username.data.contains ' ' || decide (username = "")) = true
    · rw [if_pos hguard] at hcontra
      cases hcontra
    · rw [if_neg hguard] at hcontra
      cases hgid : get_instance_dir env fs instance_name with
      | mk r1 fs1 =>
        rw [hgid] at hcontra
        cases r1 with
        | error e2 => try dsimp only at hcontra; cases hcontra
        | ok instance_dir =>
          try dsimp only at hcontra
          cases hmk : createDirAll fs1 (instance_dir ++ [".minecraft"]) with
          | none => rw [hmk] at hcontra; cases hcontra
          | some fs2 =>
            rw [hmk] at hcontra
            try dsimp only at hcontra
            cases hcfg : get_config env instance_dir with
            | error e2 => rw [hcfg] at hcontra; cases hcontra
            | ok config_json =>
              rw [hcfg] at hcontra
              try dsimp only at hcontra
              cases hvj : read_version_json env instance_dir with
              | error e2 => rw [hvj] at hcontra; cases hcontra
              | ok version_json =>
                rw [hvj] at hcontra
                try dsimp only at hcontra
                cases hga : get_arguments fuel env fs2 version_json username
                    (instance_dir ++ [".minecraft"]) instance_dir with
                | mk r2 fs3 =>
                  rw [hga] at hcontra
                  cases r2 with
                  | error e2 => try dsimp only at hcontra; cases hcontra
                  | ok game_arguments =>
                    try dsimp only at hcontra
                    cases hcj : composeJavaArguments env fs3 config_json
                        version_json instance_dir with
                    | error e2 => rw [hcj] at hcontra; cases hcontra
                    | ok java_arguments =>
                      have := composeJavaArguments_ok_rootGood env fs3 config_json
                        version_json instance_dir java_arguments hcj
                      rw [hroot] at this
                      cases this

theorem launch_no_panic_witness :
    envBadRoot.toStr (["L", "instances", "I", ".minecraft"]) = none :=
  (launch_no_panic 2 envBadRoot fsInstI ("I") ("Steve")).2.1
    (["L", "instances", "I", ".minecraft"]) rfl



/-! ## Claim C2: properties of the embedded `str::replace` -/

theorem replaceAllAux_congr (pat rep : List Char) :
    ∀ (fuel1 : Nat) (fuel2 : Nat) (s : List Char), s.length ≤ fuel1 →
      s.length ≤ fuel2 →
      replaceAllAux pat rep fuel1 s = replaceAllAux pat rep fuel2 s := by
  intro fuel1
  induction fuel1 with
  | zero =>
    intro fuel2 s h1 h2
    have hs : s = [] := List.eq_nil_of_length_eq_zero (Nat.le_zero.mp h1)
    subst hs
    cases fuel2 <;> rfl
  | succ fuel1 ih =>
    intro fuel2 s h1 h2
    cases s with
    | nil => cases fuel2 <;> rfl
    | cons c rest =>
      cases fuel2 with
      | zero => simp at h2
      | succ fuel2 =>
        simp only [replaceAllAux]
        by_cases hp : pat.isPrefixOf (c :: rest) = true
        · rw [if_pos hp, if_pos hp]
          congr 1
          apply ih
          · have := List.length_drop (pat.length - 1) rest
            simp only [List.length_cons] at h1
            omega
          · have := List.length_drop (pat.length - 1) rest
            simp only [List.length_cons] at h2
            omega
        · rw [if_neg hp, if_neg hp]
          congr 1
          apply ih
          · simp only [List.length_cons] at h1
            omega
          · simp only [List.length_cons] at h2
            omega

theorem replaceAll_cons_pos (pat rep : List Char) (c : Char) (rest : List Char)
    (h : pat.isPrefixOf (c :: rest) = true) :
    replaceAll pat rep (c :: rest) =
      rep ++ replaceAll pat rep (rest.drop (pat.length - 1)) := by
  show replaceAllAux pat rep (rest.length + 1) (c :: rest) = _
  rw [replaceAllAux, if_pos h]
  congr 1
  apply replaceAllAux_congr
  · have := List.length_drop (pat.length - 1) rest
    omega
  · exact Nat.le_refl _

theorem replaceAll_cons_neg (pat rep : List Char) (c : Char) (rest : List Char)
    (h : ¬ pat.isPrefixOf (c :: rest) = true) :
    replaceAll pat rep (c :: rest) = c :: replaceAll pat rep rest := by
  show replaceAllAux pat rep (rest.length + 1) (c :: rest) = _
  rw [replaceAllAux, if_neg h]
  rfl

theorem isPrefixOf_append_self {α : Type} [BEq α] [LawfulBEq α] (l r : List α) :
    l.isPrefixOf (l ++ r) = true := by
  induction l with
  | nil => simp [List.isPrefixOf]
  | cons c rest ih => simp [List.isPrefixOf, ih]

theorem token_head_not_pfx (pat : List Char) (c : Char) (rest : List Char)
    (hpat : pat.head? = some '$') (hc : c ≠ '$') :
    pat.isPrefixOf (c :: rest) = false := by
  cases pat with
  | nil => cases hpat
  | cons p ps =>
    injection hpat with hpat
    subst hpat
    have hbeq : ('$' == c) = false := beq_eq_false_iff_ne.mpr (fun hh => hc hh.symm)
    simp [List.isPrefixOf, hbeq]

theorem tokenChars_head (v : String) : (tokenChars v).head? = some '$' := rfl

theorem replaceAll_skip (pat rep : List Char) (hpat : pat.head? = some '$') :
    ∀ (m : List Char), (∀ c ∈ m, c ≠ '$') → ∀ (rest : List Char),
      replaceAll pat rep (m ++ rest) = m ++ replaceAll pat rep rest := by
  intro m
  induction m with
  | nil => intro _ rest; rfl
  | cons c ms ih =>
    intro hm rest
    have hc : c ≠ '$' := hm c (by simp)
    rw [List.cons_append,
      replaceAll_cons_neg pat rep c (ms ++ rest)
        (by rw [token_head_not_pfx pat c (ms ++ rest) hpat hc]; simp),
      ih (fun x hx => hm x (by simp [hx])) rest]
    simp

theorem replaceAll_token_self (v : String) (rep rest : List Char) :
    replaceAll (tokenChars v) rep (tokenChars v ++ rest) =
      rep ++ replaceAll (tokenChars v) rep rest := by
  have hcons : tokenChars v ++ rest =
      '$' :: (('\x7b' :: (v.data ++ ['\x7d'])) ++ rest) := rfl
  rw [hcons, replaceAll_cons_pos _ _ _ _ ?_]
  · congr 1
    congr 1
    have hlen : (tokenChars v).length - 1 = ('\x7b' :: (v.data ++ ['\x7d'])).length := by
      simp [tokenChars]
    rw [hlen, List.drop_left]
  · rw [show ('$' :: (('\x7b' :: (v.data ++ ['\x7d'])) ++ rest)) =
        tokenChars v ++ rest from rfl]
    exact isPrefixOf_append_self _ _



theorem goodNameB_spec (n : String) (h : goodNameB n = true) :
    ∀ c ∈ n.data, c ≠ '$' ∧ c ≠ '\x7b' ∧ c ≠ '\x7d' := by
  intro c hc
  have h2 := List.all_eq_true.mp h c hc
  simp only [Bool.and_eq_true, bne_iff_ne, ne_eq] at h2
  exact ⟨h2.1.1, h2.1.2, h2.2⟩

theorem body_prefix_eq : ∀ (a b rest : List Char),
    (∀ c ∈ a, c ≠ '\x7d') → (∀ c ∈ b, c ≠ '\x7d') →
    ((a ++ ['\x7d']) <+: (b ++ ['\x7d'] ++ rest)) → a = b := by
  intro a
  induction a with
  | nil =>
    intro b rest ha hb h
    cases b with
    | nil => rfl
    | cons x xs =>
      exfalso
      rw [List.nil_append, List.cons_append, List.cons_append] at h
      exact hb x (by simp) (List.cons_prefix_cons.mp h).1.symm
  | cons y ys ih =>
    intro b rest ha hb h
    cases b with
    | nil =>
      exfalso
      rw [List.cons_append, List.nil_append] at h
      exact ha y (by simp) (List.cons_prefix_cons.mp h).1
    | cons x xs =>
      rw [List.cons_append, List.cons_append, List.cons_append] at h
      have h2 := List.cons_prefix_cons.mp h
      rw [h2.1, ih xs rest (fun c hc => ha c (by simp [hc]))
        (fun c hc => hb c (by simp [hc])) h2.2]

theorem token_prefix_eq (v name : String) (rest : List Char)
    (hv : goodNameB v = true) (hn : goodNameB name = true)
    (h : tokenChars v <+: tokenChars name ++ rest) : v = name := by
  rw [tokenChars, tokenChars, List.cons_append, List.cons_append] at h
  have h1 := (List.cons_prefix_cons.mp h).2
  have h2 := (List.cons_prefix_cons.mp h1).2
  have hd : v.data = name.data :=
    body_prefix_eq v.data name.data rest
      (fun c hc => ((goodNameB_spec v hv) c hc).2.2)
      (fun c hc => ((goodNameB_spec name hn) c hc).2.2) h2
  cases v with
  | mk vd =>
    cases name with
    | mk nd =>
      cases hd
      rfl

theorem infix_skip_nondollar : ∀ (m : List Char), (∀ c ∈ m, c ≠ '$') →
    ∀ (t rest : List Char), t.head? = some '$' → (t <:+: m ++ rest) →
      t <:+: rest := by
  intro m
  induction m with
  | nil => intro _ t rest _ h; exact h
  | cons c ms ih =>
    intro hm t rest ht h
    rw [List.cons_append] at h
    rcases List.infix_cons_iff.mp h with h | h
    · exfalso
      cases t with
      | nil => cases ht
      | cons x xs =>
        injection ht with ht
        subst ht
        exact hm c (by simp) (List.cons_prefix_cons.mp h).1.symm
    · exact ih (fun x hx => hm x (by simp [hx])) t rest ht h

theorem token_infix_tail (u name : String) (rest : List Char)
    (hu : goodNameB u = true) (hn : goodNameB name = true) (hne : u ≠ name)
    (h : tokenChars u <:+: tokenChars name ++ rest) : tokenChars u <:+: rest := by
  rw [show tokenChars name ++ rest =
      '$' :: (('\x7b' :: (name.data ++ ['\x7d'])) ++ rest) from rfl] at h
  rcases List.infix_cons_iff.mp h with h | h
  · exfalso
    rw [show ('$' :: (('\x7b' :: (name.data ++ ['\x7d'])) ++ rest)) =
        tokenChars name ++ rest from rfl] at h
    exact hne (token_prefix_eq u name rest hu hn h)
  · refine infix_skip_nondollar ('\x7b' :: (name.data ++ ['\x7d']))
      ?_ (tokenChars u) rest (tokenChars_head u) h
    intro c hc
    rcases List.mem_cons.mp hc with hc | hc
    · subst hc; decide
    · rcases List.mem_append.mp hc with hc | hc
      · exact ((goodNameB_spec name hn) c hc).1
      · rcases List.mem_singleton.mp hc with hc
        subst hc; decide

theorem infix_append_left_ext (l r x : List Char) (h : l <:+: r) : l <:+: x ++ r :=
  h.trans (List.suffix_append x r).isInfix

theorem infix_append_right_ext (l r x : List Char) (h : l <:+: r) : l <:+: r ++ x :=
  h.trans (List.prefix_append r x).isInfix



theorem noDollar_spec (s : String) (h : noDollar s = true) :
    ∀ c ∈ s.data, c ≠ '$' := by
  intro c hc
  have h2 := List.all_eq_true.mp h c hc
  simpa using h2

theorem TokWF_prepend (avoid : List String) (m : List Char)
    (hm : ∀ c ∈ m, c ≠ '$') :
    ∀ t, TokWF avoid t → TokWF avoid (m ++ t) := by
  induction m with
  | nil => intro t h; exact h
  | cons c ms ih =>
    intro t h
    rw [List.cons_append]
    exact TokWF.lit c (hm c (by simp)) _ (ih (fun x hx => hm x (by simp [hx])) t h)

theorem TokWF_of_noDollar (avoid : List String) :
    ∀ (s : List Char), (∀ c ∈ s, c ≠ '$') → TokWF avoid s := by
  intro s
  induction s with
  | nil => intro _; exact TokWF.nil
  | cons c rest ih =>
    intro h
    exact TokWF.lit c (h c (by simp)) rest (ih (fun x hx => h x (by simp [hx])))

theorem tokenAfterDollar_nondollar (name : String) (hg : goodNameB name = true) :
    ∀ c ∈ ('\x7b' :: (name.data ++ ['\x7d'])), c ≠ '$' := by
  intro c hc
  rcases List.mem_cons.mp hc with hc | hc
  · subst hc; decide
  · rcases List.mem_append.mp hc with hc | hc
    · exact ((goodNameB_spec name hg) c hc).1
    · rcases List.mem_singleton.mp hc with hc
      subst hc; decide

theorem TokWF_replace (v val : String) (hv : goodNameB v = true)
    (hval : noDollar val = true) :
    ∀ (avoid : List String) (s : List Char), TokWF avoid s →
      TokWF (v :: avoid) (replaceAll (tokenChars v) val.data s) ∧
      (∀ u, goodNameB u = true → u ≠ v → tokenChars u <:+: s →
        tokenChars u <:+: replaceAll (tokenChars v) val.data s) := by
  intro avoid s hwf
  induction hwf with
  | nil =>
    constructor
    · exact TokWF.nil
    · intro u _ _ hinf
      have := List.infix_nil.mp hinf
      simp [tokenChars] at this
  | lit c hc rest hrest ih =>
    have hnp : ¬ (tokenChars v).isPrefixOf (c :: rest) = true := by
      rw [token_head_not_pfx _ c rest (tokenChars_head v) hc]
      simp
    rw [replaceAll_cons_neg _ _ _ _ hnp]
    constructor
    · exact TokWF.lit c hc _ ih.1
    · intro u hu hne hinf
      rcases List.infix_cons_iff.mp hinf with h | h
      · exact absurd ((List.cons_prefix_cons.mp
          (show '$' :: ('\x7b' :: (u.data ++ ['\x7d'])) <+: c :: rest from h)).1.symm) hc
      · exact List.infix_cons (ih.2 u hu hne h)
  | tok name hg ha rest hrest ih =>
    by_cases hne : name = v
    · subst hne
      rw [replaceAll_token_self]
      constructor
      · exact TokWF_prepend _ val.data (noDollar_spec val hval) _ ih.1
      · intro u hu hneu hinf
        have h2 := token_infix_tail u name rest hu hg hneu hinf
        exact infix_append_left_ext _ _ _ (ih.2 u hu hneu h2)
    · have heq : replaceAll (tokenChars v) val.data (tokenChars name ++ rest) =
          tokenChars name ++ replaceAll (tokenChars v) val.data rest := by
        rw [show tokenChars name ++ rest =
            '$' :: (('\x7b' :: (name.data ++ ['\x7d'])) ++ rest) from rfl]
        rw [replaceAll_cons_neg _ _ _ _ ?_]
        · rw [replaceAll_skip _ _ (tokenChars_head v) _
            (tokenAfterDollar_nondollar name hg)]
          rfl
        · intro hp
          have hp2 : tokenChars v <+: tokenChars name ++ rest := by
            have := List.isPrefixOf_iff_prefix.mp hp
            exact this
          exact hne (token_prefix_eq v name rest hv hg hp2).symm
      rw [heq]
      constructor
      · refine TokWF.tok name hg ?_ _ ih.1
        intro hmem
        rcases List.mem_cons.mp hmem with hh | hh
        · exact hne hh
        · exact ha hh
      · intro u hu hneu hinf
        rcases List.infix_cons_iff.mp
          (show tokenChars u <:+:
            '$' :: (('\x7b' :: (name.data ++ ['\x7d'])) ++ rest) from hinf) with h | h
        · have hun : u = name := token_prefix_eq u name rest hu hg
            (show tokenChars u <+: tokenChars name ++ rest from h)
          subst hun
          exact (List.prefix_append (tokenChars u) _).isInfix
        · have h2 : tokenChars u <:+: rest :=
            infix_skip_nondollar ('\x7b' :: (name.data ++ ['\x7d']))
              (tokenAfterDollar_nondollar name hg) (tokenChars u) rest
              (tokenChars_head u) h
          exact infix_append_left_ext _ _ _ (ih.2 u hu hneu h2)

theorem TokWF_no_avoided : ∀ (avoid : List String) (s : List Char),
    TokWF avoid s → ∀ v, goodNameB v = true → v ∈ avoid →
      ¬ (tokenChars v <:+: s) := by
  intro avoid s hwf
  induction hwf with
  | nil =>
    intro v _ _ hinf
    have := List.infix_nil.mp hinf
    simp [tokenChars] at this
  | lit c hc rest hrest ih =>
    intro v hv hmem hinf
    rcases List.infix_cons_iff.mp hinf with h | h
    · exact hc ((List.cons_prefix_cons.mp
        (show '$' :: ('\x7b' :: (v.data ++ ['\x7d'])) <+: c :: rest from h)).1).symm
    · exact ih v hv hmem h
  | tok name hg ha rest hrest ih =>
    intro v hv hmem hinf
    have hne : v ≠ name := fun hh => ha (hh ▸ hmem)
    exact ih v hv hmem (token_infix_tail v name rest hv hg hne hinf)

theorem substChain_tokens : ∀ (pairs : List (String × String))
    (avoid : List String) (s : List Char),
    (∀ pv ∈ pairs, goodNameB pv.1 = true ∧ noDollar pv.2 = true) →
    TokWF avoid s →
    TokWF ((pairs.map Prod.fst).reverse ++ avoid) (substChain pairs s) ∧
    (∀ u, goodNameB u = true → u ∉ pairs.map Prod.fst →
      tokenChars u <:+: s → tokenChars u <:+: substChain pairs s) := by
  intro pairs
  induction pairs with
  | nil =>
    intro avoid s _ hwf
    exact ⟨by simpa [substChain] using hwf,
      fun u _ _ h => by simpa [substChain] using h⟩
  | cons pv rest ih =>
    intro avoid s hall hwf
    obtain ⟨hg, hnd⟩ := hall pv (by simp)
    have step := TokWF_replace pv.1 pv.2 hg hnd avoid s hwf
    have hsub : substChain (pv :: rest) s =
        substChain rest (replaceAll (tokenChars pv.1) pv.2.data s) := rfl
    rw [hsub]
    have ihs := ih (pv.1 :: avoid) _ (fun q hq => hall q (by simp [hq])) step.1
    constructor
    · have hav : ((pv :: rest).map Prod.fst).reverse ++ avoid =
          (rest.map Prod.fst).reverse ++ (pv.1 :: avoid) := by simp
      rw [hav]
      exact ihs.1
    · intro u hu hmem hinf
      have hne : u ≠ pv.1 := fun hh => hmem (by simp [hh])
      exact ihs.2 u hu (fun hh => hmem (by simp [hh])) (step.2 u hu hne hinf)



theorem replace_var_data (s v val : String) :
    (replace_var s v val).data = replaceAll (tokenChars v) val.data s.data := by
  rw [replace_var, rustReplace, stringDataMk]
  congr 1

theorem templateArg_ok_eq (fuel : Nat) (env : Env) (fs : Fs)
    (version_json : VersionDetails) (username : String)
    (minecraft_dir instance_dir : Path) (argument out : String) (fs' : Fs)
    (hroot : env.rootGood = true) (launcher_dir : Path)
    (hld : env.launcherDir = some launcher_dir)
    (h : templateArg fuel env fs version_json username minecraft_dir instance_dir
      argument = (Except.ok out, fs')) :
    out.data = substChain (substPairsOf username version_json
      (renderPath minecraft_dir)
      (renderPath (launcher_dir ++ ["assets", version_json.assetIndex.id])))
      argument.data := by
  rw [templateArg, toStr_rootGood_some env minecraft_dir hroot, hld] at h
  try dsimp only at h
  by_cases hex : existsPath fs (instance_dir ++ ["assets"]) = true
  · rw [if_pos hex] at h
    cases hmig : migrate_to_new_assets_path fuel fs (instance_dir ++ ["assets"])
        (launcher_dir ++ ["assets", version_json.assetIndex.id]) with
    | mk fs2 oerr =>
      rw [hmig] at h
      cases oerr with
      | some e2 =>
        try dsimp only at h
        injection h with h1 h2
        cases h1
      | none =>
        try dsimp only at h
        rw [toStr_rootGood_some env _ hroot] at h
        try dsimp only at h
        injection h with h1 h2
        injection h1 with h1
        rw [h1.symm]
        try simp only [substChain, substPairsOf, List.foldl_cons, List.foldl_nil,
          replace_var_data]
  · rw [if_neg hex] at h
    try dsimp only at h
    rw [toStr_rootGood_some env _ hroot] at h
    try dsimp only at h
    injection h with h1 h2
    injection h1 with h1
    rw [h1.symm]
    try simp only [substChain, substPairsOf, List.foldl_cons, List.foldl_nil,
      replace_var_data]

theorem recognizedVars_good : ∀ v ∈ recognizedVars, goodNameB v = true := by
  decide

theorem templateArg_tokens (fuel : Nat) (env : Env) (fs : Fs)
    (version_json : VersionDetails) (username : String)
    (minecraft_dir instance_dir : Path) (argument out : String) (fs' : Fs)
    (hroot : env.rootGood = true) (launcher_dir : Path)
    (hld : env.launcherDir = some launcher_dir)
    (hu : noDollar username = true) (hid : noDollar version_json.id = true)
    (hmcs : noDollar (renderPath minecraft_dir) = true)
    (hasv : noDollar (renderPath (launcher_dir ++
      ["assets", version_json.assetIndex.id])) = true)
    (hai : noDollar version_json.assetIndex.id = true)
    (hwf : TokWF [] argument.data)
    (h : templateArg fuel env fs version_json username minecraft_dir instance_dir
      argument = (Except.ok out, fs')) :
    (∀ v ∈ recognizedVars, ¬ (tokenChars v <:+: out.data)) ∧
    (∀ u2, goodNameB u2 = true → u2 ∉ recognizedVars →
      tokenChars u2 <:+: argument.data → tokenChars u2 <:+: out.data) := by
  have hdata := templateArg_ok_eq fuel env fs version_json username minecraft_dir
    instance_dir argument out fs' hroot launcher_dir hld h
  have hall : ∀ pv ∈ substPairsOf username version_json (renderPath minecraft_dir)
      (renderPath (launcher_dir ++ ["assets", version_json.assetIndex.id])),
      goodNameB pv.1 = true ∧ noDollar pv.2 = true := by
    intro pv hpv
    rw [substPairsOf] at hpv
    simp only [List.mem_cons, List.not_mem_nil, or_false] at hpv
    rcases hpv with h1 | h1 | h1 | h1 | h1 | h1 | h1 | h1 | h1 | h1 | h1 | h1 | h1 <;>
      subst h1
    · exact ⟨(by decide : goodNameB ("auth_player_name") = true), hu⟩
    · exact ⟨(by decide : goodNameB ("version_name") = true), hid⟩
    · exact ⟨(by decide : goodNameB ("game_directory") = true), hmcs⟩
    · exact ⟨(by decide : goodNameB ("assets_root") = true), hasv⟩
    · exact ⟨(by decide : goodNameB ("game_assets") = true), hasv⟩
    · exact ⟨(by decide : goodNameB ("auth_xuid") = true),
        (by decide : noDollar ("0") = true)⟩
    · exact ⟨(by decide : goodNameB ("auth_uuid") = true),
        (by decide : noDollar ("00000000-0000-0000-0000-000000000000") = true)⟩
    · exact ⟨(by decide : goodNameB ("auth_access_token") = true),
        (by decide : noDollar ("0") = true)⟩
    · exact ⟨(by decide : goodNameB ("clientid") = true),
        (by decide : noDollar ("0") = true)⟩
    · exact ⟨(by decide : goodNameB ("user_type") = true),
        (by decide : noDollar ("legacy") = true)⟩
    · exact ⟨(by decide : goodNameB ("version_type") = true),
        (by decide : noDollar ("release") = true)⟩
    · exact ⟨(by decide : goodNameB ("assets_index_name") = true), hai⟩
    · exact ⟨(by decide : goodNameB ("user_properties") = true),
        (by decide : noDollar ("\x7b\x7d") = true)⟩
  have hmfst : (substPairsOf username version_json (renderPath minecraft_dir)
      (renderPath (launcher_dir ++ ["assets", version_json.assetIndex.id]))).map
        Prod.fst = recognizedVars := rfl
  obtain ⟨h1, h2⟩ := substChain_tokens _ [] argument.data hall hwf
  constructor
  · intro v hv hinf
    refine TokWF_no_avoided _ _ h1 v (recognizedVars_good v hv) ?_ (hdata ▸ hinf)
    rw [hmfst]
    simp [hv]
  · intro u2 hg hnm hinf
    rw [hdata]
    exact h2 u2 hg (by rw [hmfst]; exact hnm) hinf

theorem templateArgs_tokens (fuel : Nat) (env : Env)
    (version_json : VersionDetails) (username : String)
    (minecraft_dir instance_dir : Path)
    (hroot : env.rootGood = true) (launcher_dir : Path)
    (hld : env.launcherDir = some launcher_dir)
    (hu : noDollar username = true) (hid : noDollar version_json.id = true)
    (hmcs : noDollar (renderPath minecraft_dir) = true)
    (hasv : noDollar (renderPath (launcher_dir ++
      ["assets", version_json.assetIndex.id])) = true)
    (hai : noDollar version_json.assetIndex.id = true) :
    ∀ (args0 : List String) (fs : Fs) (args1 : List String) (fs' : Fs),
      (∀ a ∈ args0, TokWF [] a.data) →
      templateArgs fuel env version_json username minecraft_dir instance_dir
        args0 fs = (Except.ok args1, fs') →
      (∀ b ∈ args1, ∀ v ∈ recognizedVars, ¬ (tokenChars v <:+: b.data)) ∧
      (∀ u2, goodNameB u2 = true → u2 ∉ recognizedVars →
        ∀ a ∈ args0, tokenChars u2 <:+: a.data →
          ∃ b ∈ args1, tokenChars u2 <:+: b.data) := by
  intro args0
  induction args0 with
  | nil =>
    intro fs args1 fs' _ h
    rw [templateArgs] at h
    injection h with h1 h2
    injection h1 with h1
    constructor
    · intro b hb
      rw [h1.symm] at hb
      cases hb
    · intro u2 _ _ a ha
      cases ha
  | cons a rest ih =>
    intro fs args1 fs' hwf h
    rw [templateArgs] at h
    cases hta : templateArg fuel env fs version_json username minecraft_dir
        instance_dir a with
    | mk r fs2 =>
      rw [hta] at h
      cases r with
      | error e2 =>
        try dsimp only at h
        injection h with h1 h2
        cases h1
      | ok out =>
        try dsimp only at h
        cases htas : templateArgs fuel env version_json username minecraft_dir
            instance_dir rest fs2 with
        | mk r2 fs3 =>
          rw [htas] at h
          cases r2 with
          | error e2 =>
            try dsimp only at h
            injection h with h1 h2
            cases h1
          | ok rest1 =>
            try dsimp only at h
            injection h with h1 h2
            injection h1 with h1
            have hout := templateArg_tokens fuel env fs version_json username
              minecraft_dir instance_dir a out fs2 hroot launcher_dir hld hu hid
              hmcs hasv hai (hwf a (by simp)) hta
            have hrest := ih fs2 rest1 fs3 (fun x hx => hwf x (by simp [hx])) htas
            constructor
            · intro b hb
              rw [h1.symm] at hb
              rcases List.mem_cons.mp hb with hb | hb
              · subst hb
                exact hout.1
              · exact hrest.1 b hb
            · intro u2 hg hnm a2 ha2 hinf
              rcases List.mem_cons.mp ha2 with ha2 | ha2
              · subst ha2
                exact ⟨out, by rw [h1.symm]; simp,
                  hout.2 u2 hg hnm hinf⟩
              · obtain ⟨b, hb, hbinf⟩ := hrest.2 u2 hg hnm a2 ha2 hinf
                exact ⟨b, by rw [h1.symm]; simp [hb], hbinf⟩

/-! ## Claim C2 -/

/-- Claim C2, counterexample: substituted values are not rescanned, so a
recognized placeholder can survive templating.  With the valid username
"$\x7bauth_player_name\x7d" (non-empty, no whitespace) and a legacy template
consisting of that same placeholder, the produced argument still contains the
recognized placeholder token. -/
theorem get_arguments_echo_counterexample :
    (("$\x7bauth_player_name\x7d" : String).data.contains ' ' = false) ∧
    ("$\x7bauth_player_name\x7d" : String) ≠ "" ∧
    ("auth_player_name" ∈ recognizedVars) ∧
    get_arguments 1 envRootOnly [] vjEcho ("$\x7bauth_player_name\x7d")
      (["L", "instances", "I", ".minecraft"]) dirI =
      (Except.ok ["$\x7bauth_player_name\x7d"], []) ∧
    (tokenChars ("auth_player_name") <:+:
      ("$\x7bauth_player_name\x7d" : String).data) :=
  ⟨by decide, by decide, by decide, rfl, by decide⟩

/-- Claim C2, amended: for every non-empty whitespace-free username and every
argument template, every occurrence of a recognized `$\x7b...\x7d` placeholder
present at its substitution step is replaced in one pass, and unrecognized
placeholders are left untouched with no error; consequently, when the
substituted values themselves introduce no placeholder text (no dollar sign in
the username, version id, rendered paths, or asset-index id) and every dollar
sign in a template argument begins a brace-delimited placeholder, the produced
game-argument list contains no recognized placeholder token, while unrecognized
placeholder tokens survive into the output. -/
theorem get_arguments_no_unsubstituted (fuel : Nat) (env : Env) (fs : Fs)
    (version_json : VersionDetails) (username : String)
    (minecraft_dir instance_dir : Path) (args0 args1 : List String) (fs' : Fs)
    (_hvalid : username.data.contains ' ' = false ∧ username ≠ "")
    (hroot : env.rootGood = true) (launcher_dir : Path)
    (hld : env.launcherDir = some launcher_dir)
    (hu : noDollar username = true) (hid : noDollar version_json.id = true)
    (hmcs : noDollar (renderPath minecraft_dir) = true)
    (hasv : noDollar (renderPath (launcher_dir ++
      ["assets", version_json.assetIndex.id])) = true)
    (hai : noDollar version_json.assetIndex.id = true)
    (hargs0 : extractArgs version_json = Except.ok args0)
    (hwf : ∀ a ∈ args0, TokWF [] a.data)
    (h : get_arguments fuel env fs version_json username minecraft_dir
      instance_dir = (Except.ok args1, fs')) :
    (∀ b ∈ args1, ∀ v ∈ recognizedVars, ¬ (tokenChars v <:+: b.data)) ∧
    (∀ u2, goodNameB u2 = true → u2 ∉ recognizedVars →
      ∀ a ∈ args0, tokenChars u2 <:+: a.data →
        ∃ b ∈ args1, tokenChars u2 <:+: b.data) := by
  rw [get_arguments, hargs0] at h
  try dsimp only at h
  exact templateArgs_tokens fuel env version_json username minecraft_dir
    instance_dir hroot launcher_dir hld hu hid hmcs hasv hai args0 fs args1 fs'
    hwf h

theorem get_arguments_no_unsubstituted_witness :
    ¬ (tokenChars ("auth_player_name") <:+: ("x" : String).data) := by
  have h := get_arguments_no_unsubstituted 1 envRootOnly [] vjLegacyX ("Steve")
    (["L", "instances", "I", ".minecraft"]) dirI ["x"] ["x"] []
    ⟨by decide, by decide⟩ rfl ["L"] rfl (by decide) (by decide) (by decide)
    (by decide) (by decide) rfl
    (fun a ha => by
      rcases List.mem_singleton.mp ha with ha
      subst ha
      exact TokWF_of_noDollar [] ("x" : String).data (by decide))
    rfl
  exact h.1 ("x") (by simp) ("auth_player_name") (by decide)



/-! ## Claim C5: filesystem lemmas for the asset migration -/

theorem lookup_some_mem (fs : Fs) (q : Path) (e : Entry)
    (h : lookupEntry fs q = some e) : (q, e) ∈ fs := by
  induction fs with
  | nil => cases h
  | cons ke rest ih =>
    obtain ⟨k, e2⟩ := ke
    rw [lookupEntry] at h
    by_cases hk : k = q
    · rw [if_pos hk] at h
      injection h with h
      subst hk
      subst h
      simp
    · rw [if_neg hk] at h
      exact List.mem_cons.mpr (Or.inr (ih h))

theorem isPrefixOf_iff_pfx (p q : Path) : p.isPrefixOf q = true ↔ p <+: q := by
  constructor
  · intro h
    exact List.isPrefixOf_iff_prefix.mp h
  · intro h
    exact List.isPrefixOf_iff_prefix.mpr h

theorem childNames_mem (fs : Fs) (p : Path) (n : String) (e : Entry)
    (h : lookupEntry fs (p ++ [n]) = some e) : n ∈ childNames fs p := by
  refine List.mem_filterMap.mpr ⟨(p ++ [n], e), lookup_some_mem fs (p ++ [n]) e h, ?_⟩
  have hdrop : (p ++ [n]).drop p.length = [n] := List.drop_left p [n]
  rw [hdrop]
  try dsimp only
  rw [if_pos (isPrefixOf_append_self p [n])]

theorem prefix_snoc_cases (q d : Path) (n : String) (h : q <+: d ++ [n]) :
    q <+: d ∨ q = d ++ [n] := by
  by_cases hlen : q.length ≤ d.length
  · exact Or.inl ( List.prefix_of_prefix_length_le h (List.prefix_append d [n]) hlen)
  · right
    have h1 := h.length_le
    simp only [List.length_append, List.length_cons, List.length_nil] at h1
    exact h.eq_of_length (by simp; omega)

theorem prefix_cone_cases (q d : Path) (n : String) (hq : q <+: d ++ [n])
    (hnd : ¬ d <+: q) : q <+: d := by
  rcases prefix_snoc_cases q d n hq with h | h
  · exact h
  · exact absurd (h ▸ List.prefix_append d [n]) hnd

theorem prefix_comparable (p q r : Path) (hp : p <+: r) (hq : q <+: r) :
    p <+: q ∨ q <+: p := by
  by_cases h : p.length ≤ q.length
  · exact Or.inl ( List.prefix_of_prefix_length_le hp hq h)
  · exact Or.inr ( List.prefix_of_prefix_length_le hq hp (by omega))


/-! Untouchedness: each filesystem-mutating step of the migration leaves every
key outside its write cone unchanged. -/

theorem writeFile_untouched (fs : Fs) (p : Path) (c : String) (q : Path)
    (hq : q ≠ p) : lookupEntry (writeFile fs p c).1 q = lookupEntry fs q := by
  rw [writeFile]
  split
  · show lookupEntry (insertEntry fs p (Entry.file c)) q = lookupEntry fs q
    rw [lookupEntry_insertEntry, if_neg hq]
  · show lookupEntry (insertEntry fs p (Entry.file c)) q = lookupEntry fs q
    rw [lookupEntry_insertEntry, if_neg hq]
  · rfl

theorem writeFile_ok (fs : Fs) (p : Path) (c : String) (fs2 : Fs)
    (h : writeFile fs p c = (fs2, none)) :
    lookupEntry fs2 p = some (Entry.file c) := by
  rw [writeFile] at h
  split at h
  · injection h with h1 _
    rw [← h1, lookupEntry_insertEntry, if_pos rfl]
  · injection h with h1 _
    rw [← h1, lookupEntry_insertEntry, if_pos rfl]
  · injection h with _ h2
    cases h2

theorem removeUnder_lookup_outside (fs : Fs) (p q : Path) (h : ¬ p <+: q) :
    lookupEntry (removeUnder fs p) q = lookupEntry fs q := by
  induction fs with
  | nil => rfl
  | cons ke rest ih =>
    obtain ⟨k, e⟩ := ke
    rw [removeUnder]
    by_cases hk : p.isPrefixOf k = true
    · have hkq : k ≠ q := fun hkq => h (hkq ▸ (isPrefixOf_iff_pfx p k).mp hk)
      rw [if_pos hk, ih, lookupEntry, if_neg hkq]
    · rw [if_neg hk, lookupEntry, lookupEntry, ih]

theorem removeUnder_lookup_inside (fs : Fs) (p q : Path) (h : p <+: q) :
    lookupEntry (removeUnder fs p) q = none := by
  induction fs with
  | nil => rfl
  | cons ke rest ih =>
    obtain ⟨k, e⟩ := ke
    rw [removeUnder]
    by_cases hk : p.isPrefixOf k = true
    · rw [if_pos hk]
      exact ih
    · have hkq : k ≠ q := by
        intro hkq
        exact hk ((isPrefixOf_iff_pfx p k).mpr (by rw [hkq]; exact h))
      rw [if_neg hk, lookupEntry, if_neg hkq]
      exact ih

theorem createDirAllAux_outside (rest : List String) :
    ∀ (base : Path) (fs fs2 : Fs) (q : Path),
      createDirAllAux fs base rest = some fs2 → ¬ q <+: base ++ rest →
      lookupEntry fs2 q = lookupEntry fs q := by
  induction rest with
  | nil =>
    intro base fs fs2 q h _
    rw [createDirAllAux] at h
    injection h with h
    rw [h]
  | cons c rest ih =>
    intro base fs fs2 q h hq
    rw [createDirAllAux] at h
    try dsimp only at h
    have hq2 : ¬ q <+: (base ++ [c]) ++ rest := by
      rw [List.append_assoc]
      simpa using hq
    cases hl : lookupEntry fs (base ++ [c]) with
    | some e =>
      cases e with
      | dir =>
        rw [hl] at h
        exact ih (base ++ [c]) fs fs2 q h hq2
      | file co =>
        rw [hl] at h
        cases h
    | none =>
      rw [hl] at h
      have hne : q ≠ base ++ [c] := by
        intro he
        refine hq ?_
        rw [he]
        exact ⟨rest, by simp⟩
      rw [ih (base ++ [c]) _ fs2 q h hq2, lookupEntry_insertEntry, if_neg hne]

theorem createDirAll_outside (fs : Fs) (p : Path) (fs2 : Fs) (q : Path)
    (h : createDirAll fs p = some fs2) (hq : ¬ q <+: p) :
    lookupEntry fs2 q = lookupEntry fs q :=
  createDirAllAux_outside p [] fs fs2 q h (by simpa using hq)

theorem copyEntry_untouched (go : Fs → Path → Path → Fs × Option LErr)
    (src dst : Path) (fs : Fs) (name : String) (q : Path)
    (hgo : ¬ (dst ++ [name]) <+: q → ¬ q <+: dst ++ [name] →
      lookupEntry (go fs (src ++ [name]) (dst ++ [name])).1 q = lookupEntry fs q)
    (h1 : ¬ (dst ++ [name]) <+: q) (h2 : ¬ q <+: dst ++ [name]) :
    lookupEntry (copyEntry go src dst fs name).1 q = lookupEntry fs q := by
  rw [copyEntry]
  try dsimp only
  by_cases hd : isDir fs (src ++ [name]) = true
  · rw [if_pos hd]
    exact hgo h1 h2
  · rw [if_neg hd]
    cases hl : lookupEntry fs (src ++ [name]) with
    | some e =>
      cases e with
      | file c =>
        refine writeFile_untouched fs (dst ++ [name]) c q fun he => ?_
        subst he
        exact h2 (List.prefix_refl (dst ++ [name]))
      | dir => rfl
    | none => rfl

theorem copyEntries_untouched (go : Fs → Path → Path → Fs × Option LErr)
    (src dst : Path) (q : Path)
    (hgo : ∀ (fsx : Fs) (n : String), ¬ (dst ++ [n]) <+: q → ¬ q <+: dst ++ [n] →
      lookupEntry (go fsx (src ++ [n]) (dst ++ [n])).1 q = lookupEntry fsx q) :
    ∀ (names : List String) (fs : Fs),
      (∀ m ∈ names, ¬ (dst ++ [m]) <+: q ∧ ¬ q <+: dst ++ [m]) →
      lookupEntry (copyEntries go src dst names fs).1 q = lookupEntry fs q := by
  intro names
  induction names with
  | nil => intro fs _; rfl
  | cons name rest ih =>
    intro fs hq
    rw [copyEntries]
    obtain ⟨ha, hb⟩ := hq name (by simp)
    have hstep := copyEntry_untouched go src dst fs name q (hgo fs name) ha hb
    cases hcs : copyEntry go src dst fs name with
    | mk fs2 oerr =>
      rw [hcs] at hstep
      cases oerr with
      | some e => exact hstep
      | none =>
        try dsimp only
        rw [ih fs2 fun m hm => hq m (List.mem_cons.mpr (Or.inr hm))]
        exact hstep

theorem copy_untouched (fuel : Nat) :
    ∀ (fs : Fs) (src dst q : Path), ¬ dst <+: q → ¬ q <+: dst →
      lookupEntry (copy_dir_recursive fuel fs src dst).1 q = lookupEntry fs q := by
  induction fuel with
  | zero => intro fs src dst q _ _; rfl
  | succ fuel ih =>
    intro fs src dst q h1 h2
    rw [copy_dir_recursive]
    cases hc : (if existsPath fs dst then some fs else createDirAll fs dst) with
    | none => rfl
    | some fsA =>
      have hA : lookupEntry fsA q = lookupEntry fs q := by
        by_cases hex : existsPath fs dst = true
        · rw [if_pos hex] at hc
          injection hc with hc
          rw [← hc]
        · rw [if_neg hex] at hc
          exact createDirAll_outside fs dst fsA q hc h2
      try dsimp only
      cases hrd : readDir fsA src with
      | none =>
        try dsimp only
        exact hA
      | some names =>
        try dsimp only
        have hcone : ∀ m ∈ names, ¬ (dst ++ [m]) <+: q ∧ ¬ q <+: dst ++ [m] := by
          intro m _
          refine ⟨fun hcon => h1 ((List.prefix_append dst [m]).trans hcon),
            fun hcon => h2 (prefix_cone_cases q dst m hcon h1)⟩
        rw [copyEntries_untouched (copy_dir_recursive fuel) src dst q
          (fun fsx n ha hb => ih fsx (src ++ [n]) (dst ++ [n]) q ha hb) names fsA hcone]
        exact hA



/-! Well-formedness of the source tree: every strictly deeper entry has a
directory parent.  `treeWFb` is the decidable checker, `TreeWFP` the
propositional form used by the induction. -/

theorem treeWFb_sound (fs : Fs) (root : Path) (h : treeWFb fs root = true) :
    TreeWFP fs root := by
  intro q hq hpre hne
  obtain ⟨e, he⟩ := Option.isSome_iff_exists.mp hq
  have hall := List.all_eq_true.mp h (q, e) (lookup_some_mem fs q e he)
  dsimp only at hall
  rw [if_pos ⟨(isPrefixOf_iff_pfx root q).mpr hpre, hne⟩] at hall
  exact of_decide_eq_true hall

theorem TreeWFP_step (fs : Fs) (src : Path) (h : TreeWFP fs src)
    (r : List String) (n : String)
    (hq : (lookupEntry fs (src ++ r ++ [n])).isSome = true) :
    lookupEntry fs (src ++ r) = some Entry.dir := by
  have hne : src ++ r ++ [n] ≠ src := by
    intro heq
    have hlen := congrArg List.length heq
    simp only [List.length_append, List.length_cons, List.length_nil] at hlen
    omega
  have h1 := h (src ++ r ++ [n]) hq ⟨r ++ [n], by simp⟩ hne
  rw [List.dropLast_concat] at h1
  exact h1

theorem TreeWFP_desc (fs : Fs) (src : Path) (h : TreeWFP fs src) :
    ∀ (t r : List String), t ≠ [] →
      (lookupEntry fs (src ++ r ++ t)).isSome = true →
      lookupEntry fs (src ++ r) = some Entry.dir := by
  intro t
  induction t with
  | nil => intro r hne _; exact absurd rfl hne
  | cons x t2 ih =>
    intro r _ hq
    cases ht2 : t2 with
    | nil =>
      subst ht2
      exact TreeWFP_step fs src h r x hq
    | cons y t3 =>
      have hq2 : (lookupEntry fs (src ++ (r ++ [x]) ++ t2)).isSome = true := by
        have hform : src ++ (r ++ [x]) ++ t2 = src ++ r ++ x :: t2 := by simp
        rw [hform]
        exact hq
      have hdir := ih (r ++ [x]) (by rw [ht2]; simp) hq2
      refine TreeWFP_step fs src h r x ?_
      have hform : src ++ r ++ [x] = src ++ (r ++ [x]) := by simp
      rw [hform, hdir]
      rfl

theorem TreeWFP_sub (fs : Fs) (src : Path) (n : String) (h : TreeWFP fs src) :
    TreeWFP fs (src ++ [n]) := by
  intro q hq hpre hne
  refine h q hq ((List.prefix_append src [n]).trans hpre) ?_
  intro heq
  subst heq
  have hlen := hpre.length_le
  simp only [List.length_append, List.length_cons, List.length_nil] at hlen
  omega

theorem TreeWFP_transfer (fs fs2 : Fs) (src : Path)
    (heq : ∀ q, src <+: q → lookupEntry fs2 q = lookupEntry fs q)
    (h : TreeWFP fs src) : TreeWFP fs2 src := by
  intro q hq hpre hne
  rw [heq q hpre] at hq
  have hpd : src <+: q.dropLast := by
    obtain ⟨t, ht⟩ := hpre
    cases t with
    | nil => exact absurd (by simpa using ht.symm) hne
    | cons a t2 =>
      rw [← ht, List.dropLast_append_of_ne_nil src
        (show (a :: t2 : List String) ≠ [] by simp)]
      exact List.prefix_append src (a :: t2).dropLast
  rw [heq q.dropLast hpd]
  exact h q hq hpre hne

/-! The heart of C5: a successful `copyEntries` pass copies (by relative
path and identical content) every file below every processed name, assuming
the recursive copier `go` does so below one name and touches nothing outside
its destination cone. -/

theorem copyEntries_files (go : Fs → Path → Path → Fs × Option LErr)
    (src dst : Path) (hd1 : ¬ src <+: dst) (hd2 : ¬ dst <+: src)
    (hgoU : ∀ (fsx : Fs) (n : String) (q : Path),
      ¬ (dst ++ [n]) <+: q → ¬ q <+: dst ++ [n] →
      lookupEntry (go fsx (src ++ [n]) (dst ++ [n])).1 q = lookupEntry fsx q)
    (hgoF : ∀ (fsx : Fs) (n : String) (fsy : Fs),
      go fsx (src ++ [n]) (dst ++ [n]) = (fsy, none) → TreeWFP fsx (src ++ [n]) →
      ∀ (rel : List String) (c : String),
        lookupEntry fsx (src ++ [n] ++ rel) = some (Entry.file c) →
        lookupEntry fsy (dst ++ [n] ++ rel) = some (Entry.file c)) :
    ∀ (names : List String) (fs fs1 : Fs),
      copyEntries go src dst names fs = (fs1, none) → TreeWFP fs src →
      ∀ n ∈ names, ∀ (rel : List String) (c : String),
        lookupEntry fs (src ++ [n] ++ rel) = some (Entry.file c) →
        lookupEntry fs1 (dst ++ [n] ++ rel) = some (Entry.file c) := by
  intro names
  induction names with
  | nil => intro fs fs1 _ _ n hn; exact absurd hn (List.not_mem_nil n)
  | cons name rest ih =>
    intro fs fs1 hrun hwf n hn rel c hfile
    rw [copyEntries] at hrun
    cases hcs : copyEntry go src dst fs name with
    | mk fs2 oerr =>
      rw [hcs] at hrun
      cases oerr with
      | some e =>
        try dsimp only at hrun
        injection hrun with _ hco
        cases hco
      | none =>
        try dsimp only at hrun
        have srcEq : ∀ q, src <+: q → lookupEntry fs2 q = lookupEntry fs q := by
          intro q hq
          have hndq : dst <+: q → False := by
            intro hdq
            rcases prefix_comparable src dst q hq hdq with h3 | h3
            · exact hd1 h3
            · exact hd2 h3
          have hne1 : ¬ (dst ++ [name]) <+: q := by
            intro hcon
            exact hndq ((List.prefix_append dst [name]).trans hcon)
          have hne2 : ¬ q <+: dst ++ [name] := by
            intro hcon
            exact hd1 (hq.trans (prefix_cone_cases q dst name hcon hndq))
          have hu := copyEntry_untouched go src dst fs name q (hgoU fs name q) hne1 hne2
          rw [hcs] at hu
          exact hu
        have hwf2 : TreeWFP fs2 src := TreeWFP_transfer fs fs2 src srcEq hwf
        by_cases hmem : n ∈ rest
        · have hfile2 : lookupEntry fs2 (src ++ [n] ++ rel) = some (Entry.file c) := by
            rw [srcEq (src ++ [n] ++ rel) ⟨[n] ++ rel, by simp⟩]
            exact hfile
          exact ih fs2 fs1 hrun hwf2 n hmem rel c hfile2
        · have hname : n = name := by
            rcases List.mem_cons.mp hn with h3 | h3
            · exact h3
            · exact absurd h3 hmem
          subst hname
          have hstep : lookupEntry fs2 (dst ++ [n] ++ rel) = some (Entry.file c) := by
            by_cases hd : isDir fs (src ++ [n]) = true
            · rw [copyEntry] at hcs
              try dsimp only at hcs
              rw [if_pos hd] at hcs
              exact hgoF fs n fs2 hcs (TreeWFP_sub fs src n hwf) rel c hfile
            · cases rel with
              | nil =>
                have hf2 : lookupEntry fs (src ++ [n]) = some (Entry.file c) := by
                  simpa using hfile
                rw [copyEntry] at hcs
                try dsimp only at hcs
                rw [if_neg hd, hf2] at hcs
                try dsimp only at hcs
                have hw := writeFile_ok fs (dst ++ [n]) c fs2 hcs
                simpa using hw
              | cons r1 rrest =>
                have hdirc := TreeWFP_desc fs src hwf (r1 :: rrest) [n] (by simp)
                  (by rw [hfile]; rfl)
                refine absurd ?_ hd
                rw [isDir, hdirc]
                rfl
          have hcone : ∀ m ∈ rest, ¬ (dst ++ [m]) <+: dst ++ [n] ++ rel ∧
              ¬ dst ++ [n] ++ rel <+: dst ++ [m] := by
            intro m hm
            constructor
            · intro hcon
              have hcon2 : dst ++ [m] <+: dst ++ ([n] ++ rel) := by
                rw [← List.append_assoc]
                exact hcon
              obtain ⟨t, ht⟩ := (List.prefix_append_right_inj dst).mp hcon2
              simp only [List.singleton_append, List.cons_append] at ht
              injection ht with hmn _
              refine hmem ?_
              rw [← hmn]
              exact hm
            · intro hcon
              have hcon2 : dst ++ ([n] ++ rel) <+: dst ++ [m] := by
                rw [← List.append_assoc]
                exact hcon
              obtain ⟨t, ht⟩ := (List.prefix_append_right_inj dst).mp hcon2
              simp only [List.singleton_append, List.cons_append] at ht
              injection ht with hmn _
              refine hmem ?_
              rw [hmn]
              exact hm
          have hun := copyEntries_untouched go src dst (dst ++ [n] ++ rel)
            (fun fsx m => hgoU fsx m (dst ++ [n] ++ rel)) rest fs2 hcone
          rw [hrun] at hun
          rw [← hstep]
          exact hun

/-! Full copy correctness: a successful `copy_dir_recursive` run, from a
well-formed source tree into a prefix-incomparable destination, reproduces
every source file at the same relative path under the destination. -/

theorem copy_files (fuel : Nat) :
    ∀ (fs : Fs) (src dst : Path) (fs1 : Fs),
      ¬ src <+: dst → ¬ dst <+: src →
      copy_dir_recursive fuel fs src dst = (fs1, none) → TreeWFP fs src →
      ∀ (rel : List String) (c : String),
        lookupEntry fs (src ++ rel) = some (Entry.file c) →
        lookupEntry fs1 (dst ++ rel) = some (Entry.file c) := by
  induction fuel with
  | zero =>
    intro fs src dst fs1 _ _ h _
    rw [copy_dir_recursive] at h
    injection h with _ hco
    cases hco
  | succ fuel ih =>
    intro fs src dst fs1 hd1 hd2 h hwf rel c hfile
    rw [copy_dir_recursive] at h
    cases hc : (if existsPath fs dst then some fs else createDirAll fs dst) with
    | none =>
      rw [hc] at h
      try dsimp only at h
      injection h with _ hco
      cases hco
    | some fsA =>
      rw [hc] at h
      try dsimp only at h
      have hAeq : ∀ q, src <+: q → lookupEntry fsA q = lookupEntry fs q := by
        intro q hq
        by_cases hex : existsPath fs dst = true
        · rw [if_pos hex] at hc
          injection hc with hc
          rw [← hc]
        · rw [if_neg hex] at hc
          refine createDirAll_outside fs dst fsA q hc ?_
          intro hcon
          exact hd1 (hq.trans hcon)
      have hwfA : TreeWFP fsA src := TreeWFP_transfer fs fsA src hAeq hwf
      cases hrd : readDir fsA src with
      | none =>
        rw [hrd] at h
        try dsimp only at h
        injection h with _ hco
        cases hco
      | some names =>
        rw [hrd] at h
        try dsimp only at h
        have hnames : names = childNames fsA src := by
          rw [readDir] at hrd
          by_cases hdir : isDir fsA src = true
          · rw [if_pos hdir] at hrd
            injection hrd with hrd
            exact hrd.symm
          · rw [if_neg hdir] at hrd
            cases hrd
        cases rel with
        | nil =>
          have hdirA : isDir fsA src = true := by
            rw [readDir] at hrd
            by_cases hdir : isDir fsA src = true
            · exact hdir
            · rw [if_neg hdir] at hrd
              cases hrd
          have hfA : lookupEntry fsA src = some (Entry.file c) := by
            rw [hAeq src (List.prefix_refl src)]
            simpa using hfile
          rw [isDir] at hdirA
          have hdd := of_decide_eq_true hdirA
          rw [hfA] at hdd
          injection hdd with hdd
          cases hdd
        | cons r1 rrest =>
          have hfA : lookupEntry fsA (src ++ [r1] ++ rrest) = some (Entry.file c) := by
            rw [hAeq (src ++ [r1] ++ rrest) ⟨[r1] ++ rrest, by simp⟩]
            rw [show src ++ [r1] ++ rrest = src ++ r1 :: rrest from by simp]
            exact hfile
          have hmemn : r1 ∈ names := by
            rw [hnames]
            cases rrest with
            | nil =>
              exact childNames_mem fsA src r1 (Entry.file c) (by simpa using hfA)
            | cons r2 rr2 =>
              have hdirc := TreeWFP_desc fsA src hwfA (r2 :: rr2) [r1] (by simp)
                (by rw [hfA]; rfl)
              exact childNames_mem fsA src r1 Entry.dir hdirc
          have hsd : ∀ nx : String, ¬ src ++ [nx] <+: dst ++ [nx] := by
            intro nx hcon
            rcases prefix_snoc_cases (src ++ [nx]) dst nx hcon with h3 | h3
            · exact hd1 ((List.prefix_append src [nx]).trans h3)
            · have h4 := congrArg List.dropLast h3
              rw [List.dropLast_concat, List.dropLast_concat] at h4
              refine hd1 ?_
              rw [h4]
          have hds : ∀ nx : String, ¬ dst ++ [nx] <+: src ++ [nx] := by
            intro nx hcon
            rcases prefix_snoc_cases (dst ++ [nx]) src nx hcon with h3 | h3
            · exact hd2 ((List.prefix_append dst [nx]).trans h3)
            · have h4 := congrArg List.dropLast h3
              rw [List.dropLast_concat, List.dropLast_concat] at h4
              refine hd2 ?_
              rw [h4]
          have hmain := copyEntries_files (copy_dir_recursive fuel) src dst hd1 hd2
            (fun fsx nx qx => copy_untouched fuel fsx (src ++ [nx]) (dst ++ [nx]) qx)
            (fun fsx nx fsy hgo htw =>
              ih fsx (src ++ [nx]) (dst ++ [nx]) fsy (hsd nx) (hds nx) hgo htw)
            names fsA fs1 h hwfA r1 hmemn rrest c hfA
          rw [show dst ++ r1 :: rrest = dst ++ [r1] ++ rrest from by simp]
          exact hmain



/-- Claim C5: asset migration first recursively copies every file and
subdirectory from the legacy per-instance asset directory to the shared
asset store (creating destination directories as needed) and only after the
entire copy succeeds deletes the legacy tree.  If any step fails, the
function returns an error and the whole legacy subtree is untouched; on
success the target contains every source file by relative path with
identical content, and the source directory no longer exists.  The source
and destination are prefix-incomparable paths and the source tree is
well-formed (every entry strictly below the root has a directory parent). -/
theorem migrate_correct (fuel : Nat) (fs : Fs) (old_assets_path assets_path : Path)
    (hd1 : ¬ old_assets_path <+: assets_path) (hd2 : ¬ assets_path <+: old_assets_path)
    (hwf : treeWFb fs old_assets_path = true) :
    (∀ (fs2 : Fs) (e : LErr),
      migrate_to_new_assets_path fuel fs old_assets_path assets_path = (fs2, some e) →
      ∀ q, old_assets_path <+: q → lookupEntry fs2 q = lookupEntry fs q) ∧
    (∀ fs2 : Fs,
      migrate_to_new_assets_path fuel fs old_assets_path assets_path = (fs2, none) →
      (∀ (rel : List String) (c : String),
        lookupEntry fs (old_assets_path ++ rel) = some (Entry.file c) →
        lookupEntry fs2 (assets_path ++ rel) = some (Entry.file c)) ∧
      existsPath fs2 old_assets_path = false) := by
  have huntouched : ∀ q, old_assets_path <+: q →
      lookupEntry (copy_dir_recursive fuel fs old_assets_path assets_path).1 q =
        lookupEntry fs q := by
    intro q hq
    refine copy_untouched fuel fs old_assets_path assets_path q ?_ ?_
    · intro hcon
      rcases prefix_comparable old_assets_path assets_path q hq hcon with h3 | h3
      · exact hd1 h3
      · exact hd2 h3
    · intro hcon
      exact hd1 (hq.trans hcon)
  constructor
  · intro fs2 e hmig
    rw [migrate_to_new_assets_path] at hmig
    cases hcp : copy_dir_recursive fuel fs old_assets_path assets_path with
    | mk fsc oerr =>
      rw [hcp] at hmig
      have hcun : ∀ q, old_assets_path <+: q →
          lookupEntry fsc q = lookupEntry fs q := by
        intro q hq
        have hu := huntouched q hq
        rw [hcp] at hu
        exact hu
      cases oerr with
      | some e2 =>
        try dsimp only at hmig
        injection hmig with hf _
        intro q hq
        rw [← hf]
        exact hcun q hq
      | none =>
        try dsimp only at hmig
        rw [removeDirAll] at hmig
        by_cases hdir : isDir fsc old_assets_path = true
        · rw [if_pos hdir] at hmig
          injection hmig with _ hco
          cases hco
        · rw [if_neg hdir] at hmig
          injection hmig with hf _
          intro q hq
          rw [← hf]
          exact hcun q hq
  · intro fs2 hmig
    rw [migrate_to_new_assets_path] at hmig
    cases hcp : copy_dir_recursive fuel fs old_assets_path assets_path with
    | mk fsc oerr =>
      rw [hcp] at hmig
      cases oerr with
      | some e2 =>
        try dsimp only at hmig
        injection hmig with _ hco
        cases hco
      | none =>
        try dsimp only at hmig
        rw [removeDirAll] at hmig
        by_cases hdir : isDir fsc old_assets_path = true
        · rw [if_pos hdir] at hmig
          injection hmig with hf _
          constructor
          · intro rel c hfile
            have hcopy := copy_files fuel fs old_assets_path assets_path fsc hd1 hd2 hcp
              (treeWFb_sound fs old_assets_path hwf) rel c hfile
            have hout : ¬ old_assets_path <+: assets_path ++ rel := by
              intro hcon
              rcases prefix_comparable old_assets_path assets_path (assets_path ++ rel)
                hcon (List.prefix_append assets_path rel) with h3 | h3
              · exact hd1 h3
              · exact hd2 h3
            rw [← hf,
              removeUnder_lookup_outside fsc old_assets_path (assets_path ++ rel) hout]
            exact hcopy
          · rw [existsPath, ← hf,
              removeUnder_lookup_inside fsc old_assets_path old_assets_path
                (List.prefix_refl old_assets_path)]
            rfl
        · rw [if_neg hdir] at hmig
          injection hmig with _ hco
          cases hco



theorem migrate_correct_witness :
    lookupEntry (migrate_to_new_assets_path 3 fsMigrate
        ["L", "instances", "I", "assets"] ["L", "assets", "store"]).1
      ["L", "assets", "store", "icons", "icon.png"] = some (Entry.file ("png")) ∧
    existsPath (migrate_to_new_assets_path 3 fsMigrate
        ["L", "instances", "I", "assets"] ["L", "assets", "store"]).1
      ["L", "instances", "I", "assets"] = false := by
  have hd1 : ¬ (["L", "instances", "I", "assets"] : Path) <+: ["L", "assets", "store"] := by
    intro hcon
    exact absurd ((isPrefixOf_iff_pfx _ _).mpr hcon) (by decide)
  have hd2 : ¬ (["L", "assets", "store"] : Path) <+: ["L", "instances", "I", "assets"] := by
    intro hcon
    exact absurd ((isPrefixOf_iff_pfx _ _).mpr hcon) (by decide)
  have h := (migrate_correct 3 fsMigrate ["L", "instances", "I", "assets"]
      ["L", "assets", "store"] hd1 hd2 (by decide)).2
    (migrate_to_new_assets_path 3 fsMigrate
      ["L", "instances", "I", "assets"] ["L", "assets", "store"]).1 rfl
  exact ⟨h.1 ["icons", "icon.png"] ("png") rfl, h.2⟩


end QL
